import Mathlib

/-!
Verification of the calculation engine of the cyberismo repository.

The development shallowly embeds the TypeScript class that generates logic
program files from a card tree, invokes the clingo solver, and parses the
results.  File-system effects are modelled by an explicit state; the card
storage layer (the Project container) is an external collaborator and is
modelled as an abstract interface.
-/

namespace Cyber

/-- Path separator; the embedding models a posix platform, where node uses
the slash. -/
def sep : String := "/"

/-- node path.join for the simple two-component case used by the source
(no dot segments appear in the joined components). -/
def pjoin (a b : String) : String := a ++ "/" ++ b

/-- JavaScript Array.prototype.at: a negative index counts from the end,
an index out of range yields undefined. -/
def jsAt (xs : List String) (i : Int) : Option String :=
  let j : Int := if i < 0 then (xs.length : Int) + i else i
  if j < 0 then none else xs[j.toNat]?

/-- Character class of the regex groups for card keys and field names:
ASCII letters, digits and underscore. -/
def isNameChar (c : Char) : Bool := c.isAlpha || c.isDigit || c = '_'

/-- Character class of the regex value group: name characters, double
quote and space. -/
def isValueChar (c : Char) : Bool := isNameChar c || c = '"' || c = ' '

/-- Boolean list-prefix test, used to model literal matching inside the
regex engine and String.prototype.replace. -/
def pfx : List Char → List Char → Bool
  | [], _ => true
  | _ :: _, [] => false
  | a :: as, b :: bs => a = b && pfx as bs

/-- Parsed Clingo result (interface ParseResult of the source; the value
is always captured as raw text by the regex, so it is a string here). -/
structure ParseResult where
  cardKey : String
  field : String
  value : String
deriving DecidableEq, Repr

/-- Strip the literal tag and opening parenthesis of the fact regex.
The alternation (field|fieldtype) followed by a literal parenthesis can
only succeed in one of the two ways, since the character after the five
tag letters decides the branch. -/
def afterTag (s : List Char) : Option (List Char) :=
  if pfx "field(".data s then some (s.drop 6)
  else if pfx "fieldtype(".data s then some (s.drop 10)
  else none

/-- Match the body of the fact regex at the start of the given suffix:
group 2 (card key run), literal comma and quote, group 3 (field name
run), literal quote and comma, group 4 (value run).  Greedy matching of
a character class followed by a literal outside the class needs no
backtracking, so each group is the maximal run. -/
def matchBody (s : List Char) : Option (List Char × List Char × List Char) :=
  let g2 := s.takeWhile isNameChar
  let r1 := s.dropWhile isNameChar
  if g2.isEmpty then none else
  if pfx [',', '"'] r1 then
    let r2 := r1.drop 2
    let g3 := r2.takeWhile isNameChar
    let r3 := r2.dropWhile isNameChar
    if g3.isEmpty then none else
    if pfx ['"', ','] r3 then
      let r4 := r3.drop 2
      let g4 := r4.takeWhile isValueChar
      if g4.isEmpty then none else some (g2, g3, g4)
    else none
  else none

/-- Try the whole fact regex at the start of the given suffix. -/
def matchAt (s : List Char) : Option (List Char × List Char × List Char) :=
  match afterTag s with
  | none => none
  | some r => matchBody r

/-- Leftmost match of the fact regex: JavaScript String.prototype.match
without the global flag tries every start position from the left. -/
def matchScan : List Char → Option (List Char × List Char × List Char)
  | [] => none
  | c :: cs =>
    match matchAt (c :: cs) with
    | some r => some r
    | none => matchScan cs

/-- Fact extracted from one output line, if the line is non-empty and the
regex matches somewhere in it. -/
def lineFact (line : String) : Option ParseResult :=
  if line = "" then none
  else
    match matchScan line.data with
    | some (g2, g3, g4) =>
      some { cardKey := String.mk g2, field := String.mk g3, value := String.mk g4 }
    | none => none

/-- JavaScript String.prototype.split on a single-character separator:
the empty string yields one empty piece, and every separator occurrence
starts a new piece. -/
def splitChar (sepc : Char) : List Char → List (List Char)
  | [] => [[]]
  | c :: cs =>
    if c = sepc then [] :: splitChar sepc cs
    else
      match splitChar sepc cs with
      | [] => [[c]]
      | l :: ls => (c :: l) :: ls

/-- Split of the solver output on newlines. -/
def splitNl (l : List Char) : List (List Char) := splitChar '\n' l

/-- Split of a card path on the path separator. -/
def jsSplitSep (s : String) : List String := (splitChar '/' s.data).map String.mk

/-- parseInput of the source: split the text on newlines, skip empty
lines, collect the first regex match of each remaining line. -/
def parseInput (input : String) : List ParseResult :=
  (splitNl input.data).filterMap (fun l => lineFact (String.mk l))

/-- Characters before the first occurrence of pat, or none when pat does
not occur.  This models String.prototype.indexOf combined with substring
from position zero. -/
def prefixBefore (pat : List Char) : List Char → Option (List Char)
  | [] => if pfx pat [] then some [] else none
  | c :: cs =>
    if pfx pat (c :: cs) then some []
    else (prefixBefore pat cs).map (c :: ·)

/-- The success marker token of the solver output. -/
def satMarker : String := "SATISFIABLE"

/-- data.substring(0, data.indexOf(marker)): when the marker is absent,
indexOf yields -1 and substring clamps it to 0, so the result is empty. -/
def actualResult (data : String) : List Char :=
  (prefixBefore satMarker.data data.data).getD []

/-- Whether the marker occurs anywhere in the string (used to state the
marker-absent case of the parsing claims). -/
def containsMarker (s : String) : Bool :=
  (prefixBefore satMarker.data s.data).isSome

/-- parseClingoResult of the source: parse the prefix before the marker;
an empty prefix (in particular a missing marker) yields undefined. -/
def parseClingoResult (data : String) : Option (List ParseResult) :=
  let a := actualResult data
  if a.length = 0 then none
  else some (parseInput (String.mk a))

/-- Structured status returned by the public operations. -/
structure RequestStatus where
  statusCode : Nat
  message : Option String := none
  payload : Option (List ParseResult) := none
deriving DecidableEq, Repr

/-- Diagnostics printed for a failing solver exit status.  The bits are
consulted only when the satisfiable and exhausted bits are not both set;
the UNKNOWN mask is zero, so its line is dead code. -/
def clingoLogs (code : Nat) : List String :=
  if !((code &&& 10 != 0) && (code &&& 20 != 0)) then
    (if code &&& 65 != 0 then ["Error"] else []) ++
    (if code &&& 1 != 0 then ["Interrupted"] else []) ++
    (if code &&& 33 != 0 then ["Out of memory"] else []) ++
    (if code &&& 128 != 0 then ["Not run"] else []) ++
    (if code &&& 0 != 0 then ["Unknown error"] else [])
  else []

/-- Remediation text returned when the solver binary produced no output
at all. -/
def installClingoMessage : String :=
  "Cannot find \"Clingo\". Please install \"Clingo\".\nIf using MacOs: \"brew install clingo\".\nIf using Windows: download sources and compile new version.\nIf using Linux: check if your distribution contains pre-built package. Otherwise download sources and compile."

/-- Outcome classification at the end of run: non-empty stdout is the
success path; otherwise non-empty stderr with a non-zero status is a
solver error answered with status 400 after logging diagnostics; and
otherwise the solver is assumed missing (status 500). -/
def runClassify (stdout stderr : String) (status : Nat) : RequestStatus × List String :=
  if stdout ≠ "" then
    ({ statusCode := 200, payload := parseClingoResult stdout }, [])
  else if stderr ≠ "" ∧ status ≠ 0 then
    ({ statusCode := 400, message := some "Clingo error" }, clingoLogs status)
  else
    ({ statusCode := 500, message := some installClingoMessage }, [])

/-- Concatenation of text fragments, modelling the += accumulation
loops of the source. -/
def strConcat : List String → String
  | [] => ""
  | s :: rest => s ++ strConcat rest

/-- Value of a metadata entry.  The source treats values as opaque
scalars rendered through a template string, except that the labels field
is iterated as an array. -/
inductive MetaValue where
  | str (s : String)
  | arr (xs : List String)
deriving DecidableEq, Repr

/-- JavaScript for..of over a metadata value: an array iterates its
elements, a string iterates its characters. -/
def iterateValue : MetaValue → List String
  | .str s => s.data.map (fun c => String.mk [c])
  | .arr xs => xs

/-- JavaScript template-string rendering of a metadata value: a string
renders as itself, an array joins its elements with commas. -/
def renderValue : MetaValue → String
  | .str s => s
  | .arr xs => String.intercalate "," xs

/-- Card of the project storage layer (interface card of the source):
unique key, file-system path and metadata entries in iteration order. -/
structure Card where
  key : String
  path : String
  metadata : List (String × MetaValue)
deriving DecidableEq, Repr

/-- Modelled from the spec: a rule-module file reference of the storage
layer, a name plus the path of its containing folder (the path may be
empty, in which case the module is skipped). -/
structure Calculation where
  name : String
  path : String
deriving DecidableEq, Repr

/-- Modelled from the spec: the Project container is an external
collaborator (lookup by key, subtree traversal, module listing); only
the interface consumed by the calculation engine is represented.
findSub k is findSpecificCard k followed by flattening its children,
with the found card unshifted in front, or none when the key does not
resolve. -/
structure Project where
  basePath : String
  calculationFolder : String
  cards : List Card
  findSub : String → Option (List Card)
  calculations : List Calculation

/-- Modelled from the spec: path resolution of the storage layer.
projectAt builds the project container rooted at a path (new Project),
findProjectRoot looks for the project root containing a card path. -/
structure World where
  projectAt : String → Project
  findProjectRoot : String → Option String

/-- File-system state: text files and directories. -/
structure FS where
  files : String → Option String
  dirs : String → Bool

/-- Overwrite one file (writeFile with the w flag). -/
def FS.write (fs : FS) (p c : String) : FS :=
  { fs with files := fun q => if q = p then some c else fs.files q }

/-- Delete one file. -/
def FS.del (fs : FS) (p : String) : FS :=
  { fs with files := fun q => if q = p then none else fs.files q }

/-- Create one directory (the recursive mkdir of the source is modelled
by creating the two directories it touches explicitly). -/
def FS.mkdirp (fs : FS) (p : String) : FS :=
  { fs with dirs := fun q => if q = p then true else fs.dirs q }

/-- Process-wide state of the Calculate class: the optional bound
project singleton and the file system. -/
structure CalcState where
  proj : Option Project
  fs : FS

/-- Destination of base.lp. -/
def Project.baseFilePath (p : Project) : String :=
  pjoin p.calculationFolder "base.lp"

/-- Destination of cardtree.lp. -/
def Project.cardTreeFilePath (p : Project) : String :=
  pjoin p.calculationFolder "cardtree.lp"

/-- Destination of modules.lp. -/
def Project.modulesFilePath (p : Project) : String :=
  pjoin p.calculationFolder "modules.lp"

/-- Destination of main.lp. -/
def Project.mainFilePath (p : Project) : String :=
  pjoin p.calculationFolder "main.lp"

/-- Destination of the per-card logic file of a card key. -/
def Project.cardUnitPath (p : Project) (key : String) : String :=
  pjoin (pjoin p.calculationFolder "cards") key ++ ".lp"

/-- The fixed base rule program (commonDefinitions of the source). -/
def commonDefinitions : String :=
  "\n%\n% Common definitions for all Cards projects\n%\n\n% parent and ancestor\nancestor(A, C) :- parent(A, C), card(A), card(B).\nancestor(A, C) :- parent(A, B), ancestor (B, C), card(A), card(B), card(C).\n\n% if the cardtype is given, then it\u0027s a card\ncard(C) :- field(C, \"cardtype\", _).\n\n% the default fields are not calculated, so let\u0027s mark them as user fields.\nuserfield(Cardkey, \"cardtype\") :- field(Cardkey, \"cardtype\", Cardtype).\nuserfield(Cardkey, \"summary\") :- field(Cardkey, \"cardtype\", Cardtype).\nuserfield(Cardkey, \"workflowState\") :- field(Cardkey, \"cardtype\", Cardtype).\n\n% if all values of a field are cardkeys, then the field is of type \"cardkeys\"\nfieldtype(X, Field, \"cardkeys\") :- field(X, Field, _), card(Value) : field(X, Field, Value).\n\n"

/-- The fixed main program skeleton (mainLogicFile of the source). -/
def mainLogicFileContent : String :=
  "\n#include \"base.lp\".\n#include \"cardtree.lp\".\n#include \"modules.lp\".\n"

/-- Helper deducing the parent path segment of a card path.  The
segment directly above the card is compared with the cardroot sentinel;
otherwise the segment two levels above is returned (via Array.at, so a
short path wraps around or yields undefined). -/
def parentPath (cardPath : String) : Option String :=
  let pathParts := jsSplitSep cardPath
  if jsAt pathParts ((pathParts.length : Int) - 2) = some "cardroot" then some ""
  else jsAt pathParts ((pathParts.length : Int) - 3)

/-- Opening comment line of a per-card logic program. -/
def cardHeader (c : Card) : String := "\n% " ++ c.key ++ "\n"

/-- Fact lines produced from the metadata entries of a card, in entry
order: labels expand to one label fact per element, any other field
becomes a single quoted field fact. -/
def metaFacts (key : String) : List (String × MetaValue) → String
  | [] => ""
  | (f, v) :: rest =>
    (if f = "labels" then
      strConcat ((iterateValue v).map
        (fun l => "label(" ++ key ++ ", \"" ++ l ++ "\").\n"))
    else
      "field(" ++ key ++ ", \"" ++ f ++ "\", \"" ++ renderValue v ++ "\").\n")
    ++ metaFacts key rest

/-- Parent fact appended to a per-card logic program: emitted when the
deduced parent segment is neither undefined nor empty. -/
def parentClause (c : Card) : String :=
  match parentPath c.path with
  | none => ""
  | some p => if p = "" then "" else "parent(" ++ c.key ++ ", " ++ p ++ ").\n"

/-- Full text of a per-card logic program (the body of the card loop of
generateCardTree). -/
def cardLogic (c : Card) : String :=
  cardHeader c ++ metaFacts c.key c.metadata ++ parentClause c

/-- One include row of the cardtree aggregator. -/
def includeRow (key : String) : String :=
  "#include \"cards/" ++ key ++ ".lp\".\n"

/-- getCards of the source: all the cards of the project, or the subtree
rooted at the given key (the card itself first). -/
def getCards (proj : Project) (pc : Option String) : List Card :=
  match pc with
  | none => proj.cards
  | some k => (proj.findSub k).getD []

/-- Content of the cardtree aggregator written by generateCardTree: one
include row per card of the listed collection. -/
def cardTreeContentOf (cards : List Card) : String :=
  strConcat (cards.map (fun c => includeRow c.key))

/-- generateBase: writes base.lp, skipped for a scoped generation. -/
def generateBase (proj : Project) (pc : Option String) (fs : FS) : FS :=
  match pc with
  | some _ => fs
  | none => fs.write proj.baseFilePath commonDefinitions

/-- generateCardTree: writes one per-card unit for every card in scope,
then rewrites the cardtree aggregator; for a scoped generation the
aggregator lists all cards of the project, otherwise the same cards that
were just written. -/
def generateCardTree (proj : Project) (pc : Option String) (fs : FS) : FS :=
  let cards := getCards proj pc
  let fs1 := cards.foldl
    (fun acc c => acc.write (proj.cardUnitPath c.key) (cardLogic c)) fs
  let allCards := match pc with
    | some _ => proj.cards
    | none => cards
  fs1.write proj.cardTreeFilePath (cardTreeContentOf allCards)

/-- generateMainLogicFile: writes main.lp, skipped for a scoped
generation. -/
def generateMainLogicFile (proj : Project) (pc : Option String) (fs : FS) : FS :=
  match pc with
  | some _ => fs
  | none => fs.write proj.mainFilePath mainLogicFileContent

/-- Last path segment (node basename) of a module file name. -/
def basenameOf (s : String) : String := ((jsSplitSep s).getLast?).getD ""

/-- Content of modules.lp: one include row per module reference whose
path is non-empty. -/
def modulesContentOf (cs : List Calculation) : String :=
  strConcat (cs.map (fun c =>
    if c.path = "" then ""
    else "#include \"" ++ pjoin c.path (basenameOf c.name) ++ "\".\n"))

/-- generateModules: writes modules.lp, skipped for a scoped
generation. -/
def generateModules (proj : Project) (pc : Option String) (fs : FS) : FS :=
  match pc with
  | some _ => fs
  | none => fs.write proj.modulesFilePath (modulesContentOf proj.calculations)

/-- generate of the source, for an already-constructed project: resolve
the optional scope card (status 400 when it does not resolve), create
the cards directory, then run the four generators (their concurrent
writes target distinct files, so the join is modelled sequentially). -/
def generateOp (proj : Project) (cardKey : Option String) (fs : FS) : FS × Nat :=
  let found : Option (Option String) :=
    match cardKey with
    | none => some none
    | some k => if (proj.findSub k).isSome then some (some k) else none
  match found with
  | none => (fs, 400)
  | some pc =>
    let fs := (fs.mkdirp proj.calculationFolder).mkdirp
      (pjoin proj.calculationFolder "cards")
    let fs := generateBase proj pc fs
    let fs := generateCardTree proj pc fs
    let fs := generateModules proj pc fs
    let fs := generateMainLogicFile proj pc fs
    (fs, 200)

/-- Public generate: unconditionally rebinds the static project to the
given path, then runs the generation. -/
def generateCall (world : World) (st : CalcState) (projectPath : String)
    (cardKey : Option String) : CalcState × Nat :=
  let proj := world.projectAt projectPath
  let r := generateOp proj cardKey st.fs
  ({ proj := some proj, fs := r.1 }, r.2)

/-- setCalculateProject: keeps an already-bound project, otherwise
resolves the project root of the card path, throwing when the card is
not under any recognized project root. -/
def setCalculateProject (world : World) (bound : Option Project) (c : Card) :
    Except String Project :=
  match bound with
  | some p => .ok p
  | none =>
    match world.findProjectRoot c.path with
    | some path => .ok (world.projectAt path)
    | none => .error ("Card \u0027" ++ c.key ++ "\u0027 not in project structure")

/-- handleCardChanged: resolve the project context, then run a scoped
generation rooted at the changed card against the bound project base
path; the result of the inner generation is discarded and status 200 is
returned. -/
def handleCardChanged (world : World) (st : CalcState) (c : Card) :
    Except String (CalcState × Nat) :=
  match setCalculateProject world st.proj c with
  | .error e => .error e
  | .ok proj =>
    let r := generateCall world { st with proj := some proj }
      proj.basePath (some c.key)
    .ok (r.1, 200)

/-- JavaScript String.prototype.replace with a string pattern: replaces
only the first occurrence, scanning from the left; with an absent
pattern the string is unchanged. -/
def replaceFirstAux (pat repl : List Char) : List Char → List Char
  | [] => if pat.isEmpty then repl else []
  | c :: cs =>
    if pfx pat (c :: cs) then repl ++ (c :: cs).drop pat.length
    else c :: replaceFirstAux pat repl cs

/-- String wrapper of replaceFirstAux. -/
def jsReplaceFirst (s pat repl : String) : String :=
  String.mk (replaceFirstAux pat.data repl.data s.data)

/-- Body of the deletion loop: delete the per-card unit when present,
then remove the include row of the card from the carried aggregator
content. -/
def deleteStep (proj : Project) (acc : FS × String) (c : Card) : FS × String :=
  let ufile := proj.cardUnitPath c.key
  let fs := if (acc.1.files ufile).isSome then acc.1.del ufile else acc.1
  (fs, jsReplaceFirst acc.2 (includeRow c.key) "")

/-- handleDeleteCard: a missing card argument returns immediately;
otherwise the project context is resolved, the affected subtree
computed, each affected unit deleted when present and its aggregator row
removed, and the aggregator rewritten only when both the aggregator file
and the calculation folder existed. -/
def handleDeleteCard (world : World) (st : CalcState) (dc : Option Card) :
    Except String CalcState :=
  match dc with
  | none => .ok st
  | some c =>
    match setCalculateProject world st.proj c with
    | .error e => .error e
    | .ok proj =>
    let affected := getCards proj (some c.key)
    let treeExists :=
      (st.fs.files proj.cardTreeFilePath).isSome && st.fs.dirs proj.calculationFolder
    let content0 := if treeExists then (st.fs.files proj.cardTreeFilePath).getD "" else ""
    let res := affected.foldl (deleteStep proj) (st.fs, content0)
    let fs2 := if treeExists then res.1.write proj.cardTreeFilePath res.2 else res.1
    .ok { proj := some proj, fs := fs2 }

/-- Project resolution of handleNewCards: an already-bound project is
reused; otherwise the root of the first card is looked up (a missing
first card faults like the source, which dereferences cards[0]). -/
def resolveFirst (world : World) (st : CalcState) (cs : List Card) :
    Except String Project :=
  match st.proj with
  | some p => Except.ok p
  | none =>
    match cs.head? with
    | none => Except.error "TypeError: cannot read properties of undefined"
    | some c =>
      match world.findProjectRoot c.path with
      | some path => Except.ok (world.projectAt path)
      | none => Except.error ("Card \u0027" ++ c.key ++ "\u0027 not in project structure")

/-- handleNewCards: resolve the project context from the first card (a
missing first card throws a TypeError when no project is bound yet);
when no aggregator and calculation folder exist the update is ignored;
otherwise a scoped cardtree generation is run for every added card. -/
def handleNewCards (world : World) (st : CalcState) (cs : List Card) :
    Except String CalcState :=
  match resolveFirst world st cs with
  | .error e => .error e
  | .ok proj =>
  let treeExists :=
    (st.fs.files proj.cardTreeFilePath).isSome && st.fs.dirs proj.calculationFolder
  if !treeExists then
    .ok { proj := some proj, fs := st.fs }
  else
    let fs := cs.foldl (fun acc c => generateCardTree proj (some c.key) acc) st.fs
    .ok { proj := some proj, fs := fs }

/-- run of the source: unconditionally rebinds the static project, fails
with status 400 when the card key does not resolve, then invokes the
solver (its streams and exit status are inputs of the model) and
classifies the outcome. -/
def runCall (world : World) (st : CalcState) (projectPath cardKey : String)
    (stdout stderr : String) (status : Nat) :
    CalcState × RequestStatus × List String :=
  let proj := world.projectAt projectPath
  let st' : CalcState := { proj := some proj, fs := st.fs }
  match proj.findSub cardKey with
  | none =>
    (st', { statusCode := 400,
            message := some ("Card \u0027" ++ cardKey ++ "\u0027 not found") }, [])
  | some _ => (st', runClassify stdout stderr status)

/-- Sequence of file writes applied in order. -/
def writeList (fs : FS) (ws : List (String × String)) : FS :=
  ws.foldl (fun a w => a.write w.1 w.2) fs

/-- The last content written to a path by a write list, if any. -/
def lastVal (ws : List (String × String)) (q : String) : Option String :=
  (ws.reverse.find? (fun w => w.1 == q)).map (·.2)

/-- Write list produced by generateCardTree. -/
def cardTreeWrites (proj : Project) (pc : Option String) : List (String × String) :=
  (getCards proj pc).map (fun c => (proj.cardUnitPath c.key, cardLogic c))
    ++ [(proj.cardTreeFilePath,
         cardTreeContentOf (match pc with
           | some _ => proj.cards
           | none => getCards proj pc))]

/-- Write list of a full unscoped generation, in execution order. -/
def genWrites (proj : Project) : List (String × String) :=
  (proj.baseFilePath, commonDefinitions)
    :: (cardTreeWrites proj none
        ++ [(proj.modulesFilePath, modulesContentOf proj.calculations),
            (proj.mainFilePath, mainLogicFileContent)])

/-- Fold of the row-removal step of handleDeleteCard over a list of keys,
describing the aggregator content after the deletion loop. -/
def stripRows (ks : List String) (s : String) : String :=
  ks.foldl (fun acc k => jsReplaceFirst acc (includeRow k) "") s

/-- Concrete fixture: a root-level card. -/
def exCard : Card :=
  { key := "card_1", path := "proj/cardroot/card_1", metadata := [] }

/-- Concrete fixture: a second root-level card. -/
def exCard2 : Card :=
  { key := "card_2", path := "proj/cardroot/card_2", metadata := [] }

/-- Concrete fixture: a project holding the two cards. -/
def exProj : Project :=
  { basePath := "proj"
    calculationFolder := "proj/.calc"
    cards := [exCard, exCard2]
    findSub := fun k =>
      if k = "card_1" then some [exCard]
      else if k = "card_2" then some [exCard2]
      else none
    calculations := [] }

/-- Concrete fixture: a world resolving every path to the fixture
project. -/
def exWorld : World :=
  { projectAt := fun _ => exProj
    findProjectRoot := fun _ => some "proj" }

/-- Concrete fixture: a world in which no path resolves to a project
root. -/
def exWorldNone : World :=
  { projectAt := fun _ => exProj
    findProjectRoot := fun _ => none }

/-- Concrete fixture: the empty file system. -/
def exFS : FS := { files := fun _ => none, dirs := fun _ => false }

/-- Concrete fixture: a file system after a generation over the first
card only (aggregator row and unit for card_1). -/
def exFSgen : FS :=
  { files := fun q =>
      if q = exProj.cardTreeFilePath then some (cardTreeContentOf [exCard])
      else if q = exProj.cardUnitPath "card_1" then some (cardLogic exCard)
      else none
    dirs := fun q => q = exProj.calculationFolder }

/-- Concrete fixture: a file system holding a per-card unit but no
aggregator file, while the calculation folder exists. -/
def exFSnoAgg : FS :=
  { files := fun q =>
      if q = exProj.cardUnitPath "card_1" then some (cardLogic exCard)
      else none
    dirs := fun q => q = exProj.calculationFolder }

/-- Concrete fixture: a child card below card_1. -/
def exCardChild : Card :=
  { key := "card_3", path := "proj/cardroot/card_1/c/card_3", metadata := [] }

/-- The write list performed by the scoped cardtree generations of
handleNewCards over the added cards. -/
def newCardWrites (proj : Project) (cs : List Card) : List (String × String) :=
  cs.flatMap (fun c =>
    [(proj.cardUnitPath c.key, cardLogic c),
     (proj.cardTreeFilePath, cardTreeContentOf proj.cards)])

/-- Character rows of an include list. -/
def charRows : List String → List Char
  | [] => []
  | m :: r => (includeRow m).data ++ charRows r

/-! Helper lemmas about strings and paths. -/

/-- Append of one path component at the data level. -/
lemma pjoin_data (a b : String) : (pjoin a b).data = a.data ++ '/' :: b.data := by
  show ((a ++ "/") ++ b).data = _
  rw [String.data_append, String.data_append, List.append_assoc]
  rfl

/-- Data of the per-card unit path. -/
lemma cardUnitPath_data (p : Project) (k : String) :
    (p.cardUnitPath k).data
      = p.calculationFolder.data
        ++ ('/' :: 'c' :: 'a' :: 'r' :: 'd' :: 's' :: '/'
            :: (k.data ++ ['.', 'l', 'p'])) := by
  show ((pjoin (pjoin p.calculationFolder "cards") k) ++ ".lp").data = _
  rw [String.data_append, pjoin_data, pjoin_data, List.append_assoc, List.append_assoc]
  rfl

/-- Data of the base file path. -/
lemma baseFilePath_data (p : Project) :
    p.baseFilePath.data
      = p.calculationFolder.data ++ ('/' :: 'b' :: 'a' :: 's' :: 'e' :: ['.', 'l', 'p']) := by
  show (pjoin p.calculationFolder "base.lp").data = _
  rw [pjoin_data]

/-- Data of the cardtree file path. -/
lemma cardTreeFilePath_data (p : Project) :
    p.cardTreeFilePath.data
      = p.calculationFolder.data
        ++ ('/' :: 'c' :: 'a' :: 'r' :: 'd' :: 't' :: 'r' :: 'e' :: 'e' :: ['.', 'l', 'p']) := by
  show (pjoin p.calculationFolder "cardtree.lp").data = _
  rw [pjoin_data]

/-- Data of the modules file path. -/
lemma modulesFilePath_data (p : Project) :
    p.modulesFilePath.data
      = p.calculationFolder.data
        ++ ('/' :: 'm' :: 'o' :: 'd' :: 'u' :: 'l' :: 'e' :: 's' :: ['.', 'l', 'p']) := by
  show (pjoin p.calculationFolder "modules.lp").data = _
  rw [pjoin_data]

/-- Data of the main file path. -/
lemma mainFilePath_data (p : Project) :
    p.mainFilePath.data
      = p.calculationFolder.data
        ++ ('/' :: 'm' :: 'a' :: 'i' :: 'n' :: ['.', 'l', 'p']) := by
  show (pjoin p.calculationFolder "main.lp").data = _
  rw [pjoin_data]

/-- The unit path of a card never collides with the base file. -/
lemma cardUnitPath_ne_base (p : Project) (k : String) :
    p.cardUnitPath k ≠ p.baseFilePath := by
  intro h
  have h2 := congrArg String.data h
  rw [cardUnitPath_data, baseFilePath_data] at h2
  have h3 := List.append_cancel_left h2
  have h4 : (some 'c' : Option Char) = some 'b' := congrArg (fun l => l[1]?) h3
  exact absurd h4 (by decide)

/-- The unit path of a card never collides with the cardtree file. -/
lemma cardUnitPath_ne_cardTree (p : Project) (k : String) :
    p.cardUnitPath k ≠ p.cardTreeFilePath := by
  intro h
  have h2 := congrArg String.data h
  rw [cardUnitPath_data, cardTreeFilePath_data] at h2
  have h3 := List.append_cancel_left h2
  have h4 : (some 's' : Option Char) = some 't' := congrArg (fun l => l[5]?) h3
  exact absurd h4 (by decide)

/-- The unit path of a card never collides with the modules file. -/
lemma cardUnitPath_ne_modules (p : Project) (k : String) :
    p.cardUnitPath k ≠ p.modulesFilePath := by
  intro h
  have h2 := congrArg String.data h
  rw [cardUnitPath_data, modulesFilePath_data] at h2
  have h3 := List.append_cancel_left h2
  have h4 : (some 'c' : Option Char) = some 'm' := congrArg (fun l => l[1]?) h3
  exact absurd h4 (by decide)

/-- The unit path of a card never collides with the main file. -/
lemma cardUnitPath_ne_main (p : Project) (k : String) :
    p.cardUnitPath k ≠ p.mainFilePath := by
  intro h
  have h2 := congrArg String.data h
  rw [cardUnitPath_data, mainFilePath_data] at h2
  have h3 := List.append_cancel_left h2
  have h4 : (some 'c' : Option Char) = some 'm' := congrArg (fun l => l[1]?) h3
  exact absurd h4 (by decide)

/-- The cardtree file is distinct from the base file. -/
lemma cardTree_ne_base (p : Project) : p.cardTreeFilePath ≠ p.baseFilePath := by
  intro h
  have h2 := congrArg String.data h
  rw [cardTreeFilePath_data, baseFilePath_data] at h2
  have h3 := List.append_cancel_left h2
  have h4 : (some 'c' : Option Char) = some 'b' := congrArg (fun l => l[1]?) h3
  exact absurd h4 (by decide)

/-- The cardtree file is distinct from the modules file. -/
lemma cardTree_ne_modules (p : Project) : p.cardTreeFilePath ≠ p.modulesFilePath := by
  intro h
  have h2 := congrArg String.data h
  rw [cardTreeFilePath_data, modulesFilePath_data] at h2
  have h3 := List.append_cancel_left h2
  have h4 : (some 'c' : Option Char) = some 'm' := congrArg (fun l => l[1]?) h3
  exact absurd h4 (by decide)

/-- The cardtree file is distinct from the main file. -/
lemma cardTree_ne_main (p : Project) : p.cardTreeFilePath ≠ p.mainFilePath := by
  intro h
  have h2 := congrArg String.data h
  rw [cardTreeFilePath_data, mainFilePath_data] at h2
  have h3 := List.append_cancel_left h2
  have h4 : (some 'c' : Option Char) = some 'm' := congrArg (fun l => l[1]?) h3
  exact absurd h4 (by decide)

/-- Unit paths of distinct keys are distinct. -/
lemma cardUnitPath_inj (p : Project) {k1 k2 : String}
    (h : p.cardUnitPath k1 = p.cardUnitPath k2) : k1 = k2 := by
  have h2 := congrArg String.data h
  rw [cardUnitPath_data, cardUnitPath_data] at h2
  have h3 := List.append_cancel_left h2
  simp at h3
  exact String.ext h3

/-- Include rows of distinct keys are distinct. -/
lemma includeRow_inj {k1 k2 : String} (h : includeRow k1 = includeRow k2) :
    k1 = k2 := by
  have h2 := congrArg String.data h
  unfold includeRow at h2
  simp only [String.data_append] at h2
  have h3 := List.append_cancel_right h2
  have h4 := List.append_cancel_left h3
  exact String.ext h4

/-! The write-list view of the generators. -/

lemma writeList_nil (fs : FS) : writeList fs [] = fs := rfl

lemma writeList_cons (fs : FS) (w : String × String) (ws : List (String × String)) :
    writeList fs (w :: ws) = writeList (fs.write w.1 w.2) ws := rfl

lemma writeList_append (fs : FS) (a b : List (String × String)) :
    writeList fs (a ++ b) = writeList (writeList fs a) b :=
  List.foldl_append _ _ a b

lemma lastVal_nil (q : String) : lastVal [] q = none := rfl

lemma lastVal_cons (w : String × String) (ws : List (String × String)) (q : String) :
    lastVal (w :: ws) q
      = (lastVal ws q).or (if w.1 = q then some w.2 else none) := by
  unfold lastVal
  rw [List.reverse_cons, List.find?_append]
  by_cases h : w.1 = q
  · simp only [List.find?, h, beq_self_eq_true]
    cases (ws.reverse.find? (fun x => x.1 == q)) <;> simp [Option.or]
  · have hb : (w.1 == q) = false := by simp [h]
    simp [List.find?, hb, h]

/-- Writing a list of files and then reading: the last write to the path
wins, otherwise the original content remains. -/
lemma writeList_files (ws : List (String × String)) (fs : FS) (q : String) :
    (writeList fs ws).files q = (lastVal ws q).or (fs.files q) := by
  induction ws generalizing fs with
  | nil => simp [writeList_nil, lastVal_nil]
  | cons w ws ih =>
    rw [writeList_cons, ih, lastVal_cons, Option.or_assoc]
    congr 1
    by_cases h : w.1 = q
    · simp [FS.write, h]
    · simp [FS.write, h, Ne.symm h]

/-- A path never written keeps its content. -/
lemma lastVal_eq_none (ws : List (String × String)) (q : String)
    (h : ∀ w ∈ ws, w.1 ≠ q) : lastVal ws q = none := by
  unfold lastVal
  rw [List.find?_eq_none.2]
  · rfl
  · intro w hw
    simpa using h w (List.mem_reverse.1 hw)

/-- mkdirp does not touch file contents. -/
lemma mkdirp_files (fs : FS) (d : String) : (fs.mkdirp d).files = fs.files := rfl

/-- Folding unit writes over cards equals the mapped write list. -/
lemma writeList_map_card (fs : FS) (f g : Card → String) (l : List Card) :
    writeList fs (l.map (fun c => (f c, g c)))
      = l.foldl (fun a c => a.write (f c) (g c)) fs := by
  rw [writeList, List.foldl_map]

/-- generateCardTree viewed as a write list. -/
lemma generateCardTree_eq (proj : Project) (pc : Option String) (fs : FS) :
    generateCardTree proj pc fs = writeList fs (cardTreeWrites proj pc) := by
  simp only [generateCardTree, cardTreeWrites, writeList_append,
    writeList_map_card]
  rfl

/-- The aggregator entry of the cardtree write list always lists all the
cards of the project. -/
lemma cardTreeWrites_content (proj : Project) (pc : Option String) :
    cardTreeWrites proj pc
      = (getCards proj pc).map (fun c => (proj.cardUnitPath c.key, cardLogic c))
        ++ [(proj.cardTreeFilePath, cardTreeContentOf proj.cards)] := by
  unfold cardTreeWrites
  cases pc <;> rfl

/-- Unscoped generate viewed as a write list over the freshly created
directories. -/
lemma generateOp_none_eq (proj : Project) (fs : FS) :
    generateOp proj none fs
      = (writeList ((fs.mkdirp proj.calculationFolder).mkdirp
            (pjoin proj.calculationFolder "cards")) (genWrites proj), 200) := by
  unfold generateOp genWrites
  simp only [writeList_cons, writeList_append]
  rw [← generateCardTree_eq]
  rfl

/-- Scoped generate on a resolving key viewed as a write list. -/
lemma generateOp_some_eq (proj : Project) (k : String) (fs : FS)
    (h : (proj.findSub k).isSome) :
    generateOp proj (some k) fs
      = (writeList ((fs.mkdirp proj.calculationFolder).mkdirp
            (pjoin proj.calculationFolder "cards")) (cardTreeWrites proj (some k)), 200) := by
  unfold generateOp
  simp only [h, if_true]
  rw [← generateCardTree_eq]
  rfl

/-- Scoped generate on an unknown key fails with status 400 and does not
touch the state. -/
lemma generateOp_notFound (proj : Project) (k : String) (fs : FS)
    (h : proj.findSub k = none) :
    generateOp proj (some k) fs = (fs, 400) := by
  unfold generateOp
  simp [h]

/-- Every character kept by takeWhile satisfies the predicate. -/
lemma all_takeWhile (p : Char → Bool) (l : List Char) :
    (l.takeWhile p).all p = true :=
  List.all_eq_true.2 (fun _ hx => List.mem_takeWhile_imp hx)

/-- A successful body match returns a non-empty name-character run, a
name-character run and a value-character run. -/
lemma matchBody_shape {s : List Char} {t : List Char × List Char × List Char}
    (h : matchBody s = some t) :
    t.1.all isNameChar = true ∧ t.1 ≠ []
      ∧ t.2.1.all isNameChar = true ∧ t.2.2.all isValueChar = true := by
  unfold matchBody at h
  by_cases c1 : (s.takeWhile isNameChar).isEmpty
  · simp only [c1, if_true] at h
    exact Option.noConfusion h
  · simp only [c1, if_false] at h
    by_cases c2 : pfx [',', '"'] (s.dropWhile isNameChar)
    · simp only [c2, if_true] at h
      by_cases c3 : (((s.dropWhile isNameChar).drop 2).takeWhile isNameChar).isEmpty
      · simp only [c3, if_true] at h
        exact Option.noConfusion h
      · simp only [c3, if_false] at h
        by_cases c4 : pfx ['"', ','] (((s.dropWhile isNameChar).drop 2).dropWhile isNameChar)
        · simp only [c4, if_true] at h
          by_cases c5 : (((((s.dropWhile isNameChar).drop 2).dropWhile isNameChar).drop 2).takeWhile isValueChar).isEmpty
          · simp only [c5, if_true] at h
            exact Option.noConfusion h
          · simp only [c5, if_false] at h
            injection h with h
            subst h
            refine ⟨all_takeWhile _ _, ?_, all_takeWhile _ _, all_takeWhile _ _⟩
            intro he
            have he2 : List.takeWhile isNameChar s = [] := he
            exact c1 (by rw [he2]; rfl)
        · simp only [c4, if_false] at h
          exact Option.noConfusion h
    · simp only [c2, if_false] at h
      exact Option.noConfusion h

/-- A successful anchored match has the shape guaranteed by the body. -/
lemma matchAt_shape {s : List Char} {t : List Char × List Char × List Char}
    (h : matchAt s = some t) :
    t.1.all isNameChar = true ∧ t.1 ≠ []
      ∧ t.2.1.all isNameChar = true ∧ t.2.2.all isValueChar = true := by
  unfold matchAt afterTag at h
  by_cases c1 : pfx "field(".data s
  · simp only [c1, if_true] at h
    exact matchBody_shape h
  · simp only [c1, if_false] at h
    by_cases c2 : pfx "fieldtype(".data s
    · simp only [c2, if_true] at h
      exact matchBody_shape h
    · simp only [c2, if_false] at h
      exact Option.noConfusion h

/-- A successful scan anywhere in a line has the guaranteed shape. -/
lemma matchScan_shape : ∀ {s : List Char} {t : List Char × List Char × List Char},
    matchScan s = some t →
    t.1.all isNameChar = true ∧ t.1 ≠ []
      ∧ t.2.1.all isNameChar = true ∧ t.2.2.all isValueChar = true := by
  intro s
  induction s with
  | nil => intro t h; exact Option.noConfusion h
  | cons c cs ih =>
    intro t h
    unfold matchScan at h
    cases hm : matchAt (c :: cs) with
    | some r => rw [hm] at h; injection h with h; subst h; exact matchAt_shape hm
    | none => rw [hm] at h; exact ih h

/-- C10: the result-line parser is total and shape-bounded.  For every
input it returns a list whose elements have card keys and field names
made only of letters, digits and underscores (keys non-empty) and values
made only of those plus quotes and spaces; each newline-separated piece
of the input contributes at most one fact, the parse is exactly the
per-line collection, and empty or non-matching lines contribute none. -/
theorem c10_parser_total_shape (input : String) :
    (∀ r ∈ parseInput input,
        r.cardKey.data.all isNameChar = true
        ∧ r.cardKey ≠ ""
        ∧ r.field.data.all isNameChar = true
        ∧ r.value.data.all isValueChar = true)
    ∧ (parseInput input).length ≤ (splitNl input.data).length
    ∧ parseInput input = (splitNl input.data).filterMap (fun l => lineFact (String.mk l))
    ∧ lineFact "" = none
    ∧ (∀ line : String, matchScan line.data = none → lineFact line = none) := by
  refine ⟨?_, List.length_filterMap_le _ _, rfl, rfl, ?_⟩
  · intro r hr
    obtain ⟨line, hline, hf⟩ := List.mem_filterMap.1 hr
    unfold lineFact at hf
    by_cases he : String.mk line = ""
    · simp [he] at hf
    · simp only [he, if_false] at hf
      cases hm : matchScan (String.mk line).data with
      | none => rw [hm] at hf; exact Option.noConfusion hf
      | some t =>
        obtain ⟨g2, g3, g4⟩ := t
        rw [hm] at hf
        injection hf with hf
        obtain ⟨h1, h2, h3, h4⟩ := matchScan_shape hm
        subst hf
        refine ⟨h1, ?_, h3, h4⟩
        intro e
        exact h2 (congrArg String.data e)
  · intro line hm0
    simp [lineFact, hm0]

/-- C10 witness: the shape bound evaluated on a concrete line. -/
theorem c10_witness :
    (("a" : String).data.all isNameChar = true
      ∧ ("c" : String).data.all isValueChar = true)
    ∧ lineFact "xyz" = none := by
  have h := (c10_parser_total_shape "field(a,\"b\",c)").1
    { cardKey := "a", field := "b", value := "c" } (by decide)
  exact ⟨⟨h.1, h.2.2.2⟩, (c10_parser_total_shape "field(a,\"b\",c)").2.2.2.2 "xyz" (by decide)⟩

/-- C2 counterexample: on the documented input the parser does not
return the value 3; the captured value keeps its surrounding double
quotes, so the claimed result is not produced. -/
theorem c2_counterexample :
    parseClingoResult "field(card1,\"priority\",\"3\")\nSATISFIABLE"
      ≠ some [{ cardKey := "card1", field := "priority", value := "3" }] := by decide

/-- C2 (amended): the documented input yields exactly one derived fact
with card key card1, field priority and raw value \"3\" (the double
quotes are part of the captured value); and any input without the
success marker yields no derivations rather than an error. -/
theorem c2_amended_parse :
    parseClingoResult "field(card1,\"priority\",\"3\")\nSATISFIABLE"
      = some [{ cardKey := "card1", field := "priority", value := "\"3\"" }]
    ∧ (∀ s : String, containsMarker s = false → parseClingoResult s = none) := by
  refine ⟨by decide, ?_⟩
  intro s h
  unfold containsMarker at h
  unfold parseClingoResult actualResult
  cases hp : prefixBefore satMarker.data s.data with
  | none => simp [hp]
  | some l => rw [hp] at h; simp at h

/-- C2 witness: the marker-absent case evaluated on a concrete input. -/
theorem c2_amended_witness :
    parseClingoResult "rule compilation diagnostics only" = none :=
  (c2_amended_parse).2 "rule compilation diagnostics only" (by decide)

example : parseClingoResult "field(card1,\"priority\",\"3\")\nSATISFIABLE"
  = some [{ cardKey := "card1", field := "priority", value := "\"3\"" }] := by decide
example : parseInput "fieldtype(a_1,\"x\",\"a b\" extra)\n\nnomatch\nffield(k,\"f\",v)"
  = [{ cardKey := "a_1", field := "x", value := "\"a b\" extra" },
     { cardKey := "k", field := "f", value := "v" }] := by decide

/-- C1 counterexample: exit status 30 has the satisfiable and exhausted
bits set and the error bit clear, yet with empty stdout and non-empty
stderr the run outcome is the validation failure 400, not a success. -/
theorem c1_counterexample :
    30 &&& 10 ≠ 0 ∧ 30 &&& 20 ≠ 0 ∧ 30 &&& 65 = 0
    ∧ (runCall exWorld { proj := none, fs := exFS } "proj" "card_1" "" "err" 30).2.1.statusCode = 400
    ∧ (runCall exWorld { proj := none, fs := exFS } "proj" "card_1" "" "err" 30).2.1.statusCode ≠ 200 := by
  decide

/-- C1 (amended): with empty stdout, non-empty stderr and a non-zero
status, run always answers the validation failure 400 with message
Clingo error; the status bits only drive the diagnostic logging, which
is suppressed exactly when both the satisfiable and exhausted bits are
set (the error bit is not consulted for that); and when neither stream
is populated run answers the environment failure 500 carrying the
solver installation guidance. -/
theorem c1_amended_exit_decoding (world : World) (st : CalcState)
    (path key stdout stderr : String) (status : Nat) (sub : List Card)
    (hfind : (world.projectAt path).findSub key = some sub) :
    (runCall world st path key stdout stderr status).2 = runClassify stdout stderr status
    ∧ (stdout = "" → stderr ≠ "" → status ≠ 0 →
        (runClassify stdout stderr status).1
          = { statusCode := 400, message := some "Clingo error", payload := none }
        ∧ (runClassify stdout stderr status).2 = clingoLogs status
        ∧ (status &&& 10 ≠ 0 → status &&& 20 ≠ 0 → clingoLogs status = []))
    ∧ (stdout = "" → (stderr = "" ∨ status = 0) →
        (runClassify stdout stderr status).1
          = { statusCode := 500, message := some installClingoMessage, payload := none }) := by
  refine ⟨by simp [runCall, hfind], ?_, ?_⟩
  · intro h1 h2 h3
    refine ⟨by simp [runClassify, h1, h2, h3], by simp [runClassify, h1, h2, h3], ?_⟩
    intro ha hb
    simp [clingoLogs, ha, hb]
  · intro h1 h2
    rcases h2 with h2 | h2 <;> simp [runClassify, h1, h2]

/-- C1 witness: the decoding evaluated at status 30 and at silence. -/
theorem c1_amended_witness :
    (runClassify "" "some error" 30).1
      = { statusCode := 400, message := some "Clingo error", payload := none }
    ∧ clingoLogs 30 = []
    ∧ (runClassify "" "" 0).1
      = { statusCode := 500, message := some installClingoMessage, payload := none } := by
  have h := c1_amended_exit_decoding exWorld { proj := none, fs := exFS }
    "proj" "card_1" "" "some error" 30 [exCard] (by decide)
  have h2 := c1_amended_exit_decoding exWorld { proj := none, fs := exFS }
    "proj" "card_1" "" "" 0 [exCard] (by decide)
  exact ⟨(h.2.1 rfl (by decide) (by decide)).1,
    (h.2.1 rfl (by decide) (by decide)).2.2 (by decide) (by decide),
    h2.2.2 rfl (Or.inl rfl)⟩

/-- The modules file is distinct from the base file. -/
lemma modules_ne_base (p : Project) : p.modulesFilePath ≠ p.baseFilePath := by
  intro h
  have h2 := congrArg String.data h
  rw [modulesFilePath_data, baseFilePath_data] at h2
  have h3 := List.append_cancel_left h2
  have h4 : (some 'm' : Option Char) = some 'b' := congrArg (fun l => l[1]?) h3
  exact absurd h4 (by decide)

/-- The main file is distinct from the base file. -/
lemma main_ne_base (p : Project) : p.mainFilePath ≠ p.baseFilePath := by
  intro h
  have h2 := congrArg String.data h
  rw [mainFilePath_data, baseFilePath_data] at h2
  have h3 := List.append_cancel_left h2
  have h4 : (some 'm' : Option Char) = some 'b' := congrArg (fun l => l[1]?) h3
  exact absurd h4 (by decide)

/-- The main file is distinct from the modules file. -/
lemma main_ne_modules (p : Project) : p.mainFilePath ≠ p.modulesFilePath := by
  intro h
  have h2 := congrArg String.data h
  rw [mainFilePath_data, modulesFilePath_data] at h2
  have h3 := List.append_cancel_left h2
  have h4 : (some 'a' : Option Char) = some 'o' := congrArg (fun l => l[2]?) h3
  exact absurd h4 (by decide)

/-- The main file is distinct from the cardtree file. -/
lemma main_ne_cardTree (p : Project) : p.mainFilePath ≠ p.cardTreeFilePath := by
  intro h
  have h2 := congrArg String.data h
  rw [mainFilePath_data, cardTreeFilePath_data] at h2
  have h3 := List.append_cancel_left h2
  have h4 : (some 'm' : Option Char) = some 'c' := congrArg (fun l => l[1]?) h3
  exact absurd h4 (by decide)

/-- The modules file is distinct from the cardtree file. -/
lemma modules_ne_cardTree (p : Project) : p.modulesFilePath ≠ p.cardTreeFilePath := by
  intro h
  have h2 := congrArg String.data h
  rw [modulesFilePath_data, cardTreeFilePath_data] at h2
  have h3 := List.append_cancel_left h2
  have h4 : (some 'm' : Option Char) = some 'c' := congrArg (fun l => l[1]?) h3
  exact absurd h4 (by decide)

/-- Last write over an appended list: the second part wins. -/
lemma lastVal_append (a b : List (String × String)) (q : String) :
    lastVal (a ++ b) q = (lastVal b q).or (lastVal a q) := by
  unfold lastVal
  rw [List.reverse_append, List.find?_append]
  cases h : (b.reverse.find? (fun w => w.1 == q)) <;> simp [h, Option.or]

/-- Per-card unit writes never hit a path distinct from every unit. -/
lemma lastVal_units_none (proj : Project) (cards : List Card) (q : String)
    (h : ∀ k, proj.cardUnitPath k ≠ q) :
    lastVal (cards.map (fun c => (proj.cardUnitPath c.key, cardLogic c))) q = none := by
  apply lastVal_eq_none
  intro w hw
  obtain ⟨c, _, rfl⟩ := List.mem_map.1 hw
  exact h c.key

/-- The cardtree write list always ends writing the full include list. -/
lemma lastVal_cardTreeWrites_tree (proj : Project) (pc : Option String) :
    lastVal (cardTreeWrites proj pc) proj.cardTreeFilePath
      = some (cardTreeContentOf proj.cards) := by
  rw [cardTreeWrites_content, lastVal_append]
  rw [lastVal_units_none proj _ _ (fun k => cardUnitPath_ne_cardTree proj k)]
  rw [lastVal_cons, lastVal_nil]
  simp [Option.or]

/-- The cardtree write list touches only unit paths and the aggregator. -/
lemma lastVal_cardTreeWrites_none (proj : Project) (pc : Option String) (q : String)
    (hunit : ∀ k, proj.cardUnitPath k ≠ q) (htree : proj.cardTreeFilePath ≠ q) :
    lastVal (cardTreeWrites proj pc) q = none := by
  rw [cardTreeWrites_content, lastVal_append]
  rw [lastVal_units_none proj _ _ hunit]
  rw [lastVal_cons, lastVal_nil]
  simp [Option.or, htree]

/-- A full generation writes the fixed rule text to the base file. -/
lemma lastVal_genWrites_base (proj : Project) :
    lastVal (genWrites proj) proj.baseFilePath = some commonDefinitions := by
  unfold genWrites
  rw [lastVal_cons, lastVal_append]
  rw [lastVal_cardTreeWrites_none proj none _ (fun k => cardUnitPath_ne_base proj k)
    (cardTree_ne_base proj)]
  rw [lastVal_cons, lastVal_cons, lastVal_nil]
  simp [Option.or, modules_ne_base proj, main_ne_base proj]

/-- A full generation writes the module include list to modules.lp. -/
lemma lastVal_genWrites_modules (proj : Project) :
    lastVal (genWrites proj) proj.modulesFilePath
      = some (modulesContentOf proj.calculations) := by
  unfold genWrites
  rw [lastVal_cons, lastVal_append]
  rw [lastVal_cardTreeWrites_none proj none _ (fun k => cardUnitPath_ne_modules proj k)
    (cardTree_ne_modules proj)]
  rw [lastVal_cons, lastVal_cons, lastVal_nil]
  simp [Option.or, main_ne_modules proj]

/-- A full generation writes the fixed skeleton to main.lp. -/
lemma lastVal_genWrites_main (proj : Project) :
    lastVal (genWrites proj) proj.mainFilePath = some mainLogicFileContent := by
  unfold genWrites
  rw [lastVal_cons, lastVal_append]
  rw [lastVal_cardTreeWrites_none proj none _ (fun k => cardUnitPath_ne_main proj k)
    (cardTree_ne_main proj)]
  rw [lastVal_cons, lastVal_cons, lastVal_nil]
  simp [Option.or]

/-- A full generation writes the full include list to the aggregator. -/
lemma lastVal_genWrites_tree (proj : Project) :
    lastVal (genWrites proj) proj.cardTreeFilePath
      = some (cardTreeContentOf proj.cards) := by
  unfold genWrites
  rw [lastVal_cons, lastVal_append]
  rw [lastVal_cardTreeWrites_tree]
  rw [lastVal_cons, lastVal_cons, lastVal_nil]
  simp [Option.or, main_ne_cardTree proj, modules_ne_cardTree proj]

/-- File contents after an unscoped generation. -/
lemma generateOp_none_files (proj : Project) (fs : FS) (q : String) :
    ((generateOp proj none fs).1).files q
      = (lastVal (genWrites proj) q).or (fs.files q) := by
  rw [generateOp_none_eq]
  show (writeList _ (genWrites proj)).files q = _
  rw [writeList_files]
  rfl

/-- File contents after a scoped generation on a resolving key. -/
lemma generateOp_some_files (proj : Project) (k : String) (fs : FS) (q : String)
    (h : (proj.findSub k).isSome) :
    ((generateOp proj (some k) fs).1).files q
      = (lastVal (cardTreeWrites proj (some k)) q).or (fs.files q) := by
  rw [generateOp_some_eq proj k fs h]
  show (writeList _ _).files q = _
  rw [writeList_files]
  rfl

/-- C7: full generation is idempotent.  Running a second unscoped
generation over an unchanged project leaves every file of the first
generation byte-identical (all written contents are functions of the
card data alone). -/
theorem c7_generate_idempotent (proj : Project) (fs : FS) (q : String) :
    ((generateOp proj none (generateOp proj none fs).1).1).files q
      = ((generateOp proj none fs).1).files q := by
  rw [generateOp_none_files, generateOp_none_files]
  cases lastVal (genWrites proj) q <;> rfl

/-- C8: a generation scoped to a subtree card leaves the base, modules
and main units untouched (also when the scope card does not resolve),
while an unscoped generation writes all three with their project-global
contents. -/
theorem c8_scoped_frame (proj : Project) (k : String) (fs : FS) :
    (((generateOp proj (some k) fs).1).files proj.baseFilePath = fs.files proj.baseFilePath
      ∧ ((generateOp proj (some k) fs).1).files proj.modulesFilePath
          = fs.files proj.modulesFilePath
      ∧ ((generateOp proj (some k) fs).1).files proj.mainFilePath
          = fs.files proj.mainFilePath)
    ∧ (((generateOp proj none fs).1).files proj.baseFilePath = some commonDefinitions
      ∧ ((generateOp proj none fs).1).files proj.modulesFilePath
          = some (modulesContentOf proj.calculations)
      ∧ ((generateOp proj none fs).1).files proj.mainFilePath
          = some mainLogicFileContent) := by
  constructor
  · cases hf : proj.findSub k with
    | none =>
      rw [generateOp_notFound proj k fs hf]
      exact ⟨rfl, rfl, rfl⟩
    | some sub =>
      have hs : (proj.findSub k).isSome := by rw [hf]; rfl
      refine ⟨?_, ?_, ?_⟩
      · rw [generateOp_some_files proj k fs _ hs,
          lastVal_cardTreeWrites_none proj _ _
            (fun j => cardUnitPath_ne_base proj j) (cardTree_ne_base proj)]
        rfl
      · rw [generateOp_some_files proj k fs _ hs,
          lastVal_cardTreeWrites_none proj _ _
            (fun j => cardUnitPath_ne_modules proj j) (cardTree_ne_modules proj)]
        rfl
      · rw [generateOp_some_files proj k fs _ hs,
          lastVal_cardTreeWrites_none proj _ _
            (fun j => cardUnitPath_ne_main proj j) (cardTree_ne_main proj)]
        rfl
  · refine ⟨?_, ?_, ?_⟩
    · rw [generateOp_none_files, lastVal_genWrites_base]; rfl
    · rw [generateOp_none_files, lastVal_genWrites_modules]; rfl
    · rw [generateOp_none_files, lastVal_genWrites_main]; rfl

/-- C3: after every successful generation, scoped or unscoped, the
cardtree aggregator holds exactly the include rows of the currently
known cards: every card of the generation scope has exactly one row,
there are no duplicate rows, and every row belongs to a currently known
card (hence none to a deleted card). -/
theorem c3_cardtree_aggregator (proj : Project) (pc : Option String) (fs : FS)
    (hnodup : (proj.cards.map Card.key).Nodup)
    (hsub : ∀ c ∈ getCards proj pc, c ∈ proj.cards)
    (hok : (generateOp proj pc fs).2 = 200) :
    ((generateOp proj pc fs).1).files proj.cardTreeFilePath
      = some (cardTreeContentOf proj.cards)
    ∧ (∀ c ∈ getCards proj pc,
        (proj.cards.map (fun d => includeRow d.key)).count (includeRow c.key) = 1)
    ∧ (proj.cards.map (fun d => includeRow d.key)).Nodup
    ∧ (∀ row ∈ proj.cards.map (fun d => includeRow d.key),
        ∃ c ∈ proj.cards, row = includeRow c.key) := by
  have hrowsequal : proj.cards.map (fun d => includeRow d.key)
      = (proj.cards.map Card.key).map includeRow := by
    rw [List.map_map]
    rfl
  have hrows : (proj.cards.map (fun d => includeRow d.key)).Nodup := by
    rw [hrowsequal]
    exact hnodup.map (fun a b hab => includeRow_inj hab)
  refine ⟨?_, ?_, hrows, ?_⟩
  · cases pc with
    | none =>
      rw [generateOp_none_files, lastVal_genWrites_tree]
      rfl
    | some k =>
      cases hf : proj.findSub k with
      | none =>
        rw [generateOp_notFound proj k fs hf] at hok
        have h400 : (400 : Nat) = 200 := hok
        exact absurd h400 (by decide)
      | some sub =>
        have hs : (proj.findSub k).isSome := by rw [hf]; rfl
        rw [generateOp_some_files proj k fs _ hs, lastVal_cardTreeWrites_tree]
        rfl
  · intro c hc
    have hmem : includeRow c.key ∈ proj.cards.map (fun d => includeRow d.key) :=
      List.mem_map_of_mem _ (hsub c hc)
    exact List.count_eq_one_of_mem hrows hmem
  · intro row hrow
    obtain ⟨c, hc, rfl⟩ := List.mem_map.1 hrow
    exact ⟨c, hc, rfl⟩

/-- C3 witness: the aggregator property evaluated on the fixture. -/
theorem c3_witness :
    ((generateOp exProj (some "card_1") exFS).1).files exProj.cardTreeFilePath
      = some (cardTreeContentOf exProj.cards)
    ∧ (exProj.cards.map (fun d => includeRow d.key)).count (includeRow "card_1") = 1 := by
  have h := c3_cardtree_aggregator exProj (some "card_1") exFS
    (by decide) (by decide) (by decide)
  exact ⟨h.1, h.2.1 exCard (by decide)⟩

/-- Array.prototype.at with a non-negative index is plain lookup. -/
lemma jsAt_nonneg (xs : List String) (n : Nat) : jsAt xs (n : Int) = xs[n]? := by
  unfold jsAt
  have h1 : ¬((n : Int) < 0) := by omega
  simp [h1]

/-- A rendered parent fact is never the empty string. -/
lemma parent_str_ne_empty (k a : String) :
    "parent(" ++ k ++ ", " ++ a ++ ").\n" ≠ "" := by
  intro h
  have h2 := congrArg String.data h
  have h3 : (some 'p' : Option Char) = none := congrArg List.head? h2
  exact Option.noConfusion h3

/-- C4: a per-card unit carries a parent fact exactly when the segment
directly above the card is not the cardroot sentinel, and the emitted
parent key is the path segment two levels above the card segment.  The
hypotheses state that the card path is a well-formed project path with
at least three segments and a non-empty grandparent segment. -/
theorem c4_parent_fact (c : Card) (xs : List String) (a b own : String)
    (hsplit : jsSplitSep c.path = xs ++ [a, b, own]) (ha : a ≠ "") :
    cardLogic c = cardHeader c ++ metaFacts c.key c.metadata ++ parentClause c
    ∧ (parentClause c = "" ↔ b = "cardroot")
    ∧ (b ≠ "cardroot" →
        parentClause c = "parent(" ++ c.key ++ ", " ++ a ++ ").\n") := by
  have hlen : (jsSplitSep c.path).length = xs.length + 3 := by
    rw [hsplit]
    simp
  have e1 : ((jsSplitSep c.path).length : Int) - 2 = ((xs.length + 1 : Nat) : Int) := by
    rw [hlen]
    push_cast
    ring
  have e2 : ((jsSplitSep c.path).length : Int) - 3 = ((xs.length : Nat) : Int) := by
    rw [hlen]
    push_cast
    ring
  have hb : (jsSplitSep c.path)[xs.length + 1]? = some b := by
    rw [hsplit, List.getElem?_append_right (by omega)]
    have he : xs.length + 1 - xs.length = 1 := by omega
    rw [he]
    rfl
  have ha2 : (jsSplitSep c.path)[xs.length]? = some a := by
    rw [hsplit, List.getElem?_append_right (le_refl _)]
    simp
  have hp : parentPath c.path = if b = "cardroot" then some "" else some a := by
    simp only [parentPath]
    rw [e1, e2, jsAt_nonneg, jsAt_nonneg, hb, ha2]
    by_cases hb2 : b = "cardroot" <;> simp [hb2]
  refine ⟨rfl, ?_, ?_⟩
  · by_cases hb2 : b = "cardroot"
    · simp [parentClause, hp, hb2]
    · simp [parentClause, hp, hb2, ha, parent_str_ne_empty c.key a]
  · intro hb2
    simp [parentClause, hp, hb2, ha]

/-- C4 witness: the parent clause of a child card and of a root card. -/
theorem c4_witness :
    (parentClause exCardChild
      = "parent(" ++ "card_3" ++ ", " ++ "card_1" ++ ").\n")
    ∧ parentClause exCard = "" := by
  constructor
  · exact (c4_parent_fact exCardChild
      ["proj", "cardroot"] "card_1" "c" "card_3" (by decide) (by decide)).2.2
      (by decide)
  · exact (c4_parent_fact exCard [] "proj" "cardroot" "card_1"
      (by decide) (by decide)).2.1.2 rfl

/-- Every per-card unit lives below the calculation folder. -/
lemma cardUnitPath_decomp (p : Project) (k : String) :
    p.cardUnitPath k = (p.calculationFolder ++ "/") ++ ("cards/" ++ (k ++ ".lp")) := by
  apply String.ext
  rw [cardUnitPath_data]
  simp only [String.data_append, List.append_assoc]
  rfl

/-- The deletion loop touches no file outside the per-card units. -/
lemma deleteStep_fold_files (p : Project) (cards : List Card) (fs : FS)
    (content : String) (q : String) (h : ∀ k, p.cardUnitPath k ≠ q) :
    ((cards.foldl (deleteStep p) (fs, content)).1).files q = fs.files q := by
  induction cards generalizing fs content with
  | nil => rfl
  | cons c cs ih =>
    rw [List.foldl_cons]
    rw [show deleteStep p (fs, content) c
        = (if (fs.files (p.cardUnitPath c.key)).isSome
             then fs.del (p.cardUnitPath c.key) else fs,
           jsReplaceFirst content (includeRow c.key) "") from rfl]
    by_cases hc : (fs.files (p.cardUnitPath c.key)).isSome
    · rw [if_pos hc, ih]
      simp [FS.del, Ne.symm (h c.key)]
    · rw [if_neg hc, ih]

/-- Reduction of handleDeleteCard when a project is already bound. -/
lemma handleDeleteCard_bound (world : World) (p : Project) (fs : FS) (c : Card) :
    handleDeleteCard world { proj := some p, fs := fs } (some c)
      = Except.ok (CalcState.mk (some p)
          (if ((fs.files p.cardTreeFilePath).isSome && fs.dirs p.calculationFolder) then
              ((getCards p (some c.key)).foldl (deleteStep p)
                  (fs, (fs.files p.cardTreeFilePath).getD "")).1.write
                p.cardTreeFilePath
                ((getCards p (some c.key)).foldl (deleteStep p)
                  (fs, (fs.files p.cardTreeFilePath).getD "")).2
            else
              ((getCards p (some c.key)).foldl (deleteStep p) (fs, "")).1)) := by
  by_cases ht : ((fs.files p.cardTreeFilePath).isSome && fs.dirs p.calculationFolder) = true
  · simp only [handleDeleteCard, setCalculateProject, ht, if_true]
  · rw [Bool.not_eq_true] at ht
    simp only [handleDeleteCard, setCalculateProject, ht, Bool.false_eq_true, if_false]

/-- Reduction of handleNewCards when a project is already bound. -/
lemma handleNewCards_bound (world : World) (p : Project) (fs : FS) (cs : List Card) :
    handleNewCards world { proj := some p, fs := fs } cs
      = (if ((fs.files p.cardTreeFilePath).isSome && fs.dirs p.calculationFolder) then
          Except.ok (CalcState.mk (some p)
            (cs.foldl (fun acc d => generateCardTree p (some d.key) acc) fs))
        else Except.ok { proj := some p, fs := fs }) := by
  by_cases ht : ((fs.files p.cardTreeFilePath).isSome && fs.dirs p.calculationFolder) = true
  · simp only [handleNewCards, resolveFirst, ht, Bool.not_true, Bool.false_eq_true,
      if_false, if_true]
  · rw [Bool.not_eq_true] at ht
    simp only [handleNewCards, resolveFirst, ht, Bool.not_false, if_true,
      Bool.false_eq_true, if_false]

/-- C9: the bound project is a process-wide singleton with asymmetric
binding.  generate and run unconditionally rebind the static project to
their project path argument; setCalculateProject keeps an existing
binding untouched for any card; and once a project is bound, the three
card handlers never raise the project-resolution fault even when the
card lies outside every recognized project root, with handleDeleteCard
writing only below the bound project calculation folder. -/
theorem c9_singleton_binding (world : World) (st : CalcState) (path : String)
    (k : Option String) (ck stdout stderr : String) (status : Nat)
    (p : Project) (fs : FS) (c : Card) :
    ((generateCall world st path k).1.proj = some (world.projectAt path))
    ∧ ((runCall world st path ck stdout stderr status).1.proj
        = some (world.projectAt path))
    ∧ (setCalculateProject world (some p) c = Except.ok p)
    ∧ (world.findProjectRoot c.path = none →
        (setCalculateProject world none c
          = Except.error ("Card '" ++ c.key ++ "' not in project structure"))
        ∧ (∃ st2, handleDeleteCard world { proj := some p, fs := fs } (some c)
              = .ok st2
            ∧ st2.proj = some p
            ∧ ∀ q, st2.fs.files q ≠ fs.files q →
                ∃ t, q = (p.calculationFolder ++ "/") ++ t)
        ∧ (∃ r, handleCardChanged world { proj := some p, fs := fs } c = .ok r)
        ∧ (∃ st3, handleNewCards world { proj := some p, fs := fs } [c] = .ok st3
            ∧ st3.proj = some p)) := by
  refine ⟨rfl, ?_, rfl, ?_⟩
  · cases hf : (world.projectAt path).findSub ck <;> simp [runCall, hf]
  · intro hroot
    refine ⟨by simp [setCalculateProject, hroot], ?_, ?_, ?_⟩
    · refine ⟨_, handleDeleteCard_bound world p fs c, rfl, ?_⟩
      intro q hq
      by_contra hnp
      push_neg at hnp
      have hunit : ∀ j, p.cardUnitPath j ≠ q := by
        intro j e
        exact hnp ("cards/" ++ (j ++ ".lp")) (by rw [← e]; exact cardUnitPath_decomp p j)
      have htree : p.cardTreeFilePath ≠ q := by
        intro e
        exact hnp "cardtree.lp" (by rw [← e]; rfl)
      apply hq
      show (if ((fs.files p.cardTreeFilePath).isSome && fs.dirs p.calculationFolder) then
              ((getCards p (some c.key)).foldl (deleteStep p)
                  (fs, (fs.files p.cardTreeFilePath).getD "")).1.write
                p.cardTreeFilePath
                ((getCards p (some c.key)).foldl (deleteStep p)
                  (fs, (fs.files p.cardTreeFilePath).getD "")).2
            else
              ((getCards p (some c.key)).foldl (deleteStep p) (fs, "")).1).files q
          = fs.files q
      by_cases ht : ((fs.files p.cardTreeFilePath).isSome && fs.dirs p.calculationFolder) = true
      · rw [if_pos ht]
        rw [show ∀ res : FS × String, (res.1.write p.cardTreeFilePath res.2).files q
              = res.1.files q from fun res => by simp [FS.write, Ne.symm htree]]
        exact deleteStep_fold_files p _ fs _ q hunit
      · rw [if_neg ht]
        exact deleteStep_fold_files p _ fs _ q hunit
    · exact ⟨_, rfl⟩
    · rw [handleNewCards_bound]
      by_cases ht : ((fs.files p.cardTreeFilePath).isSome && fs.dirs p.calculationFolder) = true
      · rw [if_pos ht]
        exact ⟨_, rfl, rfl⟩
      · rw [if_neg ht]
        exact ⟨_, rfl, rfl⟩

/-- C9 witness: binding behaviour on the fixtures, with a world that
recognizes no project root. -/
theorem c9_witness :
    ((generateCall exWorld { proj := none, fs := exFS } "proj" none).1.proj
        = some exProj)
    ∧ (setCalculateProject exWorldNone (some exProj) exCard = Except.ok exProj)
    ∧ (∃ st2, handleDeleteCard exWorldNone { proj := some exProj, fs := exFS }
          (some exCard) = .ok st2 ∧ st2.proj = some exProj) := by
  have h := c9_singleton_binding exWorldNone { proj := none, fs := exFS } "proj"
    none "card_1" "" "" 0 exProj exFS exCard
  have h4 := h.2.2.2 rfl
  obtain ⟨st2, he, hp2, _⟩ := h4.2.1
  exact ⟨(c9_singleton_binding exWorld { proj := none, fs := exFS } "proj" none
    "x" "" "" 0 exProj exFS exCard).1, h.2.2.1, ⟨st2, he, hp2⟩⟩

/-- The empty string is a left unit of append. -/
lemma empty_sappend (s : String) : "" ++ s = s := by cases s; rfl

/-- Concatenation distributes over list append. -/
lemma strConcat_append (a b : List String) :
    strConcat (a ++ b) = strConcat a ++ strConcat b := by
  induction a with
  | nil =>
    rw [List.nil_append]
    show strConcat b = "" ++ strConcat b
    rw [empty_sappend]
  | cons x xs ih =>
    simp [strConcat, ih, String.append_assoc]

/-- The aggregator content of appended card lists splits. -/
lemma cardTreeContentOf_append (a b : List Card) :
    cardTreeContentOf (a ++ b) = cardTreeContentOf a ++ cardTreeContentOf b := by
  unfold cardTreeContentOf
  rw [List.map_append, strConcat_append]

/-- The handleNewCards loop viewed as one write list, when every added
card is a leaf subtree of its own. -/
lemma newCards_fold_eq (proj : Project) (cs : List Card) (fs : FS)
    (hfind : ∀ c ∈ cs, proj.findSub c.key = some [c]) :
    cs.foldl (fun acc d => generateCardTree proj (some d.key) acc) fs
      = writeList fs (newCardWrites proj cs) := by
  induction cs generalizing fs with
  | nil => rfl
  | cons c cs ih =>
    rw [List.foldl_cons, ih _ (fun d hd => hfind d (List.mem_cons_of_mem c hd))]
    rw [show newCardWrites proj (c :: cs)
        = [(proj.cardUnitPath c.key, cardLogic c),
           (proj.cardTreeFilePath, cardTreeContentOf proj.cards)]
          ++ newCardWrites proj cs from List.flatMap_cons c cs _]
    rw [writeList_append]
    congr 1
    rw [generateCardTree_eq, cardTreeWrites_content]
    rw [show getCards proj (some c.key) = [c] by
      show (proj.findSub c.key).getD [] = [c]
      rw [hfind c (List.mem_cons_self c cs)]
      rfl]
    rfl

/-- Each scoped regeneration rewrites the aggregator with the rows of
all project cards, so the last write holds exactly those rows. -/
lemma lastVal_newCardWrites_tree (proj : Project) (cs : List Card) (hne : cs ≠ []) :
    lastVal (newCardWrites proj cs) proj.cardTreeFilePath
      = some (cardTreeContentOf proj.cards) := by
  induction cs with
  | nil => exact absurd rfl hne
  | cons c cs ih =>
    rw [show newCardWrites proj (c :: cs)
        = [(proj.cardUnitPath c.key, cardLogic c),
           (proj.cardTreeFilePath, cardTreeContentOf proj.cards)]
          ++ newCardWrites proj cs from List.flatMap_cons c cs _]
    rw [lastVal_append]
    cases cs with
    | nil =>
      rw [show newCardWrites proj [] = [] from rfl, lastVal_nil]
      rw [lastVal_cons, lastVal_cons, lastVal_nil]
      simp [Option.or, Ne.symm (cardUnitPath_ne_cardTree proj c.key)]
    | cons d ds =>
      rw [ih (by intro h; exact List.noConfusion h)]
      rfl

/-- The final content of the unit of an added card is its fact text. -/
lemma lastVal_newCardWrites_unit (proj : Project) (cs : List Card) (c : Card)
    (hc : c ∈ cs)
    (hinj : ∀ c1 ∈ cs, ∀ c2 ∈ cs, c1.key = c2.key → c1 = c2) :
    lastVal (newCardWrites proj cs) (proj.cardUnitPath c.key)
      = some (cardLogic c) := by
  induction cs with
  | nil => exact absurd hc (List.not_mem_nil c)
  | cons d ds ih =>
    rw [show newCardWrites proj (d :: ds)
        = [(proj.cardUnitPath d.key, cardLogic d),
           (proj.cardTreeFilePath, cardTreeContentOf proj.cards)]
          ++ newCardWrites proj ds from List.flatMap_cons d ds _]
    rw [lastVal_append]
    by_cases hds : c ∈ ds
    · rw [ih hds (fun c1 h1 c2 h2 =>
        hinj c1 (List.mem_cons_of_mem d h1) c2 (List.mem_cons_of_mem d h2))]
      rfl
    · have hcd : c = d := by
        rcases List.mem_cons.1 hc with h | h
        · exact h
        · exact absurd h hds
      subst hcd
      have hrest : lastVal (newCardWrites proj ds) (proj.cardUnitPath c.key) = none := by
        apply lastVal_eq_none
        intro w hw
        obtain ⟨e, he, hwe⟩ := List.mem_flatMap.1 hw
        rcases List.mem_cons.1 hwe with h | h
        · subst h
          intro hkey
          have : e.key = c.key := cardUnitPath_inj proj hkey
          have he2 : e = c := hinj e (List.mem_cons_of_mem c he) c
            (List.mem_cons_self c ds) this
          subst he2
          exact hds he
        · rcases List.mem_cons.1 h with h2 | h2
          · subst h2
            exact Ne.symm (cardUnitPath_ne_cardTree proj c.key)
          · exact absurd h2 (List.not_mem_nil w)
      rw [hrest]
      rw [lastVal_cons, lastVal_cons, lastVal_nil]
      simp [Option.or, Ne.symm (cardUnitPath_ne_cardTree proj c.key)]

/-- C5: handleNewCards is a no-op on the files when no calculation
corpus exists (missing aggregator or missing calculation folder); when
the corpus exists and holds the rows of the previously known cards, the
call appends exactly one aggregator row and writes exactly one fresh
unit per created card, leaving every other file unchanged. -/
theorem c5_handle_new_cards (world : World) (proj : Project) (fs : FS)
    (cs old : List Card)
    (hfind : ∀ c ∈ cs, proj.findSub c.key = some [c])
    (hcards : proj.cards = old ++ cs) :
    ((fs.files proj.cardTreeFilePath = none ∨ fs.dirs proj.calculationFolder = false) →
      ∃ st2, handleNewCards world { proj := some proj, fs := fs } cs = .ok st2
        ∧ ∀ q, st2.fs.files q = fs.files q)
    ∧ ((fs.files proj.cardTreeFilePath = some (cardTreeContentOf old)
        ∧ fs.dirs proj.calculationFolder = true) →
      ∃ st2, handleNewCards world { proj := some proj, fs := fs } cs = .ok st2
        ∧ st2.fs.files proj.cardTreeFilePath
            = some (cardTreeContentOf old ++ cardTreeContentOf cs)
        ∧ (∀ c ∈ cs, st2.fs.files (proj.cardUnitPath c.key) = some (cardLogic c))
        ∧ (∀ q, q ≠ proj.cardTreeFilePath →
            (∀ c ∈ cs, q ≠ proj.cardUnitPath c.key) →
            st2.fs.files q = fs.files q)) := by
  have hinj : ∀ c1 ∈ cs, ∀ c2 ∈ cs, c1.key = c2.key → c1 = c2 := by
    intro c1 h1 c2 h2 hk
    have e2 : some [c1] = some [c2] := by
      rw [← hfind c1 h1, hk, hfind c2 h2]
    simpa using e2
  constructor
  · intro hmiss
    have hcond : ((fs.files proj.cardTreeFilePath).isSome
        && fs.dirs proj.calculationFolder) = false := by
      rcases hmiss with h | h
      · rw [h]
        rfl
      · rw [h, Bool.and_false]
    rw [handleNewCards_bound]
    rw [if_neg (by rw [hcond]; exact Bool.noConfusion)]
    exact ⟨_, rfl, fun q => rfl⟩
  · intro hex
    obtain ⟨htree, hdirs⟩ := hex
    have hcond : ((fs.files proj.cardTreeFilePath).isSome
        && fs.dirs proj.calculationFolder) = true := by
      rw [htree, hdirs]
      rfl
    rw [handleNewCards_bound, if_pos hcond]
    have hfold := newCards_fold_eq proj cs fs hfind
    refine ⟨_, rfl, ?_, ?_, ?_⟩
    · show ((cs.foldl (fun acc d => generateCardTree proj (some d.key) acc) fs).files _) = _
      rw [hfold, writeList_files]
      cases hcs : cs with
      | nil =>
        rw [show (lastVal (newCardWrites proj []) proj.cardTreeFilePath) = none from rfl]
        rw [show cardTreeContentOf ([] : List Card) = "" from rfl, String.append_empty]
        exact htree
      | cons d ds =>
        rw [lastVal_newCardWrites_tree proj (d :: ds) (fun h => List.noConfusion h),
          ← hcs, hcards, cardTreeContentOf_append]
        rfl
    · intro c hc
      show ((cs.foldl (fun acc d => generateCardTree proj (some d.key) acc) fs).files _) = _
      rw [hfold, writeList_files, lastVal_newCardWrites_unit proj cs c hc hinj]
      rfl
    · intro q hqt hqu
      show ((cs.foldl (fun acc d => generateCardTree proj (some d.key) acc) fs).files q) = _
      rw [hfold, writeList_files, lastVal_eq_none]
      · rfl
      · intro w hw
        obtain ⟨e, he, hwe⟩ := List.mem_flatMap.1 hw
        rcases List.mem_cons.1 hwe with h | h
        · subst h
          exact fun hh => hqu e he hh.symm
        · rcases List.mem_cons.1 h with h2 | h2
          · subst h2
            exact fun hh => hqt hh.symm
          · exact absurd h2 (List.not_mem_nil w)

/-- C5 witness: adding one card to the generated fixture corpus. -/
theorem c5_witness :
    ∃ st2, handleNewCards exWorld { proj := some exProj, fs := exFSgen } [exCard2]
        = .ok st2
      ∧ st2.fs.files exProj.cardTreeFilePath
          = some (cardTreeContentOf [exCard] ++ cardTreeContentOf [exCard2])
      ∧ st2.fs.files (exProj.cardUnitPath "card_2") = some (cardLogic exCard2) := by
  have h := (c5_handle_new_cards exWorld exProj exFSgen [exCard2] [exCard]
    (by decide) (by decide)).2 ⟨by decide, by decide⟩
  obtain ⟨st2, he, ht, hu, _⟩ := h
  exact ⟨st2, he, ht, hu exCard2 (by decide)⟩

/-- Prefix testing cancels a common leading run. -/
lemma pfx_append_same (h x y : List Char) :
    pfx (h ++ x) (h ++ y) = pfx x y := by
  induction h with
  | nil => rfl
  | cons c cs ih => simp [pfx, ih]

/-- Every list is a prefix of itself followed by anything. -/
lemma pfx_refl_append (p w : List Char) : pfx p (p ++ w) = true := by
  induction p with
  | nil => rfl
  | cons c cs ih => simp [pfx, ih]

/-- A successful prefix test exhibits the remaining suffix. -/
lemma pfx_eq_append (p s : List Char) (h : pfx p s = true) :
    ∃ w, s = p ++ w := by
  induction p generalizing s with
  | nil => exact ⟨s, rfl⟩
  | cons c cs ih =>
    cases s with
    | nil => exact absurd h (by simp [pfx])
    | cons d ds =>
      simp only [pfx, Bool.and_eq_true, decide_eq_true_eq] at h
      obtain ⟨rfl, h2⟩ := h
      obtain ⟨w, rfl⟩ := ih ds h2
      exact ⟨w, rfl⟩

/-- Two name-character runs closed by a dot can only align when they
are equal: the dot ends the run on both sides. -/
lemma token_boundary (A : List Char) :
    ∀ (B zs ws : List Char), A.all isNameChar = true → B.all isNameChar = true →
    pfx (A ++ '.' :: zs) (B ++ '.' :: ws) = true → A = B := by
  induction A with
  | nil =>
    intro B zs ws _ hB h
    cases B with
    | nil => rfl
    | cons b bs =>
      simp only [List.nil_append, List.cons_append, pfx, Bool.and_eq_true,
        decide_eq_true_eq] at h
      obtain ⟨h1, _⟩ := h
      have hb : isNameChar b = true := (List.all_eq_true.1 hB) b (List.mem_cons_self b bs)
      rw [← h1] at hb
      exact absurd hb (by decide)
  | cons a as ih =>
    intro B zs ws hA hB h
    cases B with
    | nil =>
      simp only [List.nil_append, List.cons_append, pfx, Bool.and_eq_true,
        decide_eq_true_eq] at h
      obtain ⟨h1, _⟩ := h
      have ha : isNameChar a = true := (List.all_eq_true.1 hA) a (List.mem_cons_self a as)
      rw [h1] at ha
      exact absurd ha (by decide)
    | cons b bs =>
      simp only [List.cons_append, pfx, Bool.and_eq_true, decide_eq_true_eq] at h
      obtain ⟨rfl, h2⟩ := h
      have hA2 : as.all isNameChar = true := by
        rw [List.all_cons, Bool.and_eq_true] at hA
        exact hA.2
      have hB2 : bs.all isNameChar = true := by
        rw [List.all_cons, Bool.and_eq_true] at hB
        exact hB.2
      rw [ih bs zs ws hA2 hB2 h2]

/-- Characters of an include row. -/
lemma includeRow_data (k : String) :
    (includeRow k).data
      = "#include \"cards/".data ++ (k.data ++ ".lp\".\n".data) := by
  unfold includeRow
  simp [String.data_append, List.append_assoc]

/-- Characters of a concatenated include list. -/
lemma strConcat_rows_data (M : List String) :
    (strConcat (M.map includeRow)).data = charRows M := by
  induction M with
  | nil => rfl
  | cons m r ih => simp [strConcat, charRows, String.data_append, ih]

/-- An include row that starts at the beginning of another include row
names the same key: keys are name-character runs ended by the dot of
the lp suffix. -/
lemma rowPrefix_eq (k m : String) (Z : List Char)
    (hk : k.data.all isNameChar = true) (hm : m.data.all isNameChar = true)
    (h : pfx ((includeRow k).data) ((includeRow m).data ++ Z) = true) : k = m := by
  rw [includeRow_data, includeRow_data] at h
  rw [List.append_assoc ("#include \"cards/".data) (m.data ++ ".lp\".\n".data) Z,
    List.append_assoc m.data (".lp\".\n".data) Z, pfx_append_same] at h
  exact String.ext (token_boundary k.data m.data ("lp\".\n".data)
    ("lp\".\n".data ++ Z) hk hm h)

/-- After its leading hash an include row contains no hash character,
so row matches can only start at row boundaries. -/
lemma includeRow_tail_no_hash (m : String) (hm : m.data.all isNameChar = true) :
    ∀ ch ∈ ((includeRow m).data).drop 1, ch ≠ '#' := by
  intro ch hch he
  subst he
  rw [show ((includeRow m).data).drop 1
      = "include \"cards/".data ++ (m.data ++ ".lp\".\n".data) from by
    rw [includeRow_data]; rfl] at hch
  rcases List.mem_append.1 hch with h | h
  · exact absurd h (by decide)
  · rcases List.mem_append.1 h with h | h
    · have h2 := (List.all_eq_true.1 hm) _ h
      exact absurd h2 (by decide)
    · exact absurd h (by decide)

/-- The include row of a different key matches at no position inside a
row (not even spilling over into arbitrary following text). -/
lemma no_match_in_row (k m : String) (W : List Char)
    (hk : k.data.all isNameChar = true) (hm : m.data.all isNameChar = true)
    (hne : k ≠ m) :
    ∀ i, i < ((includeRow m).data).length →
      pfx ((includeRow k).data) (((includeRow m).data ++ W).drop i) = false := by
  intro i hi
  by_cases hi0 : i = 0
  · subst hi0
    by_contra hp
    rw [Bool.not_eq_false] at hp
    exact hne (rowPrefix_eq k m W hk hm hp)
  · rw [List.drop_append_of_le_length (le_of_lt hi)]
    cases hd : ((includeRow m).data).drop i with
    | nil =>
      exact absurd (List.drop_eq_nil_iff.1 hd) (by omega)
    | cons y rest =>
      have hy : y ∈ ((includeRow m).data).drop 1 := by
        have h1 : y ∈ (((includeRow m).data).drop 1).drop (i - 1) := by
          rw [List.drop_drop, show 1 + (i - 1) = i by omega, hd]
          exact List.mem_cons_self y rest
        exact List.mem_of_mem_drop h1
      have hy2 : y ≠ '#' := includeRow_tail_no_hash m hm y hy
      show pfx ((includeRow k).data) (y :: (rest ++ W)) = false
      rw [show (includeRow k).data
          = '#' :: ("include \"cards/".data ++ (k.data ++ ".lp\".\n".data)) from by
        rw [includeRow_data]; rfl]
      simp [pfx, Ne.symm hy2]

/-- First-occurrence replacement walks past a region without any
match. -/
lemma replaceFirstAux_skip (pat repl a b : List Char)
    (h0 : ∀ i, i < a.length → pfx pat ((a ++ b).drop i) = false) :
    replaceFirstAux pat repl (a ++ b) = a ++ replaceFirstAux pat repl b := by
  induction a with
  | nil => rfl
  | cons x a2 ih =>
    show replaceFirstAux pat repl (x :: (a2 ++ b)) = _
    rw [show replaceFirstAux pat repl (x :: (a2 ++ b))
        = if pfx pat (x :: (a2 ++ b)) then repl ++ (x :: (a2 ++ b)).drop pat.length
          else x :: replaceFirstAux pat repl (a2 ++ b) from rfl]
    have h00 := h0 0 (by simp)
    rw [show ((x :: a2 ++ b).drop 0) = x :: (a2 ++ b) from rfl] at h00
    rw [if_neg (by rw [h00]; exact Bool.noConfusion)]
    rw [ih (fun i hi => by
      have := h0 (i + 1) (by simp; omega)
      rwa [show ((x :: a2 ++ b).drop (i + 1)) = (a2 ++ b).drop i from rfl] at this)]
    rfl

/-- An include row starts with the hash character. -/
lemma includeRow_data_cons (k : String) :
    (includeRow k).data
      = '#' :: ("include \"cards/".data ++ (k.data ++ ".lp\".\n".data)) := by
  rw [includeRow_data]
  rfl

/-- An include row is never empty. -/
lemma includeRow_data_ne_nil (k : String) : (includeRow k).data ≠ [] := by
  rw [includeRow_data_cons]
  exact fun h => List.noConfusion h

/-- Character rows of an appended key list. -/
lemma charRows_append (A B : List String) :
    charRows (A ++ B) = charRows A ++ charRows B := by
  induction A with
  | nil => rfl
  | cons a as ih => simp [charRows, ih]

/-- First-occurrence replacement fires on an immediate match. -/
lemma replaceFirstAux_hit (pat repl W : List Char) (hne : pat ≠ []) :
    replaceFirstAux pat repl (pat ++ W) = repl ++ W := by
  cases pat with
  | nil => exact absurd rfl hne
  | cons c cs =>
    show replaceFirstAux (c :: cs) repl (c :: (cs ++ W)) = _
    rw [show replaceFirstAux (c :: cs) repl (c :: (cs ++ W))
        = if pfx (c :: cs) (c :: (cs ++ W))
          then repl ++ (c :: (cs ++ W)).drop (c :: cs).length
          else c :: replaceFirstAux (c :: cs) repl (cs ++ W) from rfl]
    rw [if_pos (show pfx (c :: cs) (c :: (cs ++ W)) = true from pfx_refl_append (c :: cs) W)]
    rw [show (c :: (cs ++ W)).drop ((c :: cs).length) = (cs ++ W).drop cs.length from rfl,
      List.drop_left]

/-- Replacement of the row of an absent key walks past a whole block
of rows untouched. -/
lemma replace_skip_rows (k : String) (repl : List Char) (M : List String)
    (Z : List Char) (hk : k.data.all isNameChar = true)
    (hM : ∀ m ∈ M, m.data.all isNameChar = true) (hkM : k ∉ M) :
    replaceFirstAux ((includeRow k).data) repl (charRows M ++ Z)
      = charRows M ++ replaceFirstAux ((includeRow k).data) repl Z := by
  induction M with
  | nil => rfl
  | cons m M2 ih =>
    show replaceFirstAux _ _ (((includeRow m).data ++ charRows M2) ++ Z) = _
    rw [List.append_assoc]
    rw [replaceFirstAux_skip ((includeRow k).data) repl ((includeRow m).data)
      (charRows M2 ++ Z)
      (no_match_in_row k m (charRows M2 ++ Z) hk (hM m (List.mem_cons_self m M2))
        (fun e => hkM (e ▸ List.mem_cons_self m M2)))]
    rw [ih (fun x hx => hM x (List.mem_cons_of_mem m hx))
      (fun hx => hkM (List.mem_cons_of_mem m hx))]
    rw [show charRows (m :: M2) = (includeRow m).data ++ charRows M2 from rfl,
      List.append_assoc]

/-- Removing one include row from a canonical aggregator by exact line
match deletes exactly the row of that key. -/
lemma jsReplaceFirst_row (keys : List String) (k : String)
    (hnd : keys.Nodup) (hkeys : ∀ m ∈ keys, m.data.all isNameChar = true)
    (hk : k.data.all isNameChar = true) :
    jsReplaceFirst (strConcat (keys.map includeRow)) (includeRow k) ""
      = strConcat (((keys.erase k)).map includeRow) := by
  by_cases hmem : k ∈ keys
  · obtain ⟨A, B, rfl⟩ := List.append_of_mem hmem
    have hkA : k ∉ A := by
      rw [List.nodup_append] at hnd
      intro hin
      exact hnd.2.2 hin (List.mem_cons_self k B)
    apply String.ext
    show replaceFirstAux ((includeRow k).data) ("".data)
        ((strConcat ((A ++ k :: B).map includeRow)).data)
      = (strConcat (((A ++ k :: B).erase k).map includeRow)).data
    rw [List.erase_append_right _ hkA, List.erase_cons_head]
    rw [strConcat_rows_data, strConcat_rows_data]
    rw [charRows_append, charRows_append]
    rw [show charRows (k :: B) = (includeRow k).data ++ charRows B from rfl]
    rw [replace_skip_rows k ("".data) A ((includeRow k).data ++ charRows B) hk
      (fun m hm => hkeys m (List.mem_append.2 (Or.inl hm)))
      hkA]
    rw [replaceFirstAux_hit _ _ _ (includeRow_data_ne_nil k)]
    rfl
  · rw [List.erase_of_not_mem hmem]
    apply String.ext
    show replaceFirstAux ((includeRow k).data) ("".data)
        ((strConcat (keys.map includeRow)).data)
      = (strConcat (keys.map includeRow)).data
    rw [strConcat_rows_data]
    rw [show charRows keys = charRows keys ++ [] from (List.append_nil _).symm]
    rw [replace_skip_rows k ("".data) keys [] hk hkeys hmem]
    rw [show replaceFirstAux ((includeRow k).data) ("".data) [] = [] from by
      rw [show replaceFirstAux ((includeRow k).data) ("".data) []
          = if ((includeRow k).data).isEmpty then ("".data) else [] from rfl]
      rw [if_neg (by rw [includeRow_data_cons]; exact Bool.noConfusion)]]

/-- The deletion loop removes the rows of all affected keys from a
canonical aggregator, one erase per key. -/
lemma stripRows_rows (ks : List String) : ∀ (keys : List String), keys.Nodup →
    (∀ m ∈ keys, m.data.all isNameChar = true) →
    (∀ j ∈ ks, j.data.all isNameChar = true) →
    stripRows ks (strConcat (keys.map includeRow))
      = strConcat ((ks.foldl List.erase keys).map includeRow) := by
  induction ks with
  | nil =>
    intro keys _ _ _
    rfl
  | cons j js ih =>
    intro keys hnd hkeys hks
    show stripRows js
        (jsReplaceFirst (strConcat (keys.map includeRow)) (includeRow j) "") = _
    rw [jsReplaceFirst_row keys j hnd hkeys (hks j (List.mem_cons_self j js))]
    rw [ih (keys.erase j) (hnd.erase j)
      (fun m hm => hkeys m (List.mem_of_mem_erase hm))
      (fun x hx => hks x (List.mem_cons_of_mem j hx))]
    rfl

/-- Iterated erase on a duplicate-free list is a filter. -/
lemma foldl_erase_filter (ks : List String) : ∀ (keys : List String), keys.Nodup →
    ks.foldl List.erase keys = keys.filter (fun m => !ks.contains m) := by
  induction ks with
  | nil =>
    intro keys _
    simp
  | cons j js ih =>
    intro keys hnd
    show js.foldl List.erase (keys.erase j) = _
    rw [ih _ (hnd.erase j), hnd.erase_eq_filter j, List.filter_filter]
    apply List.filter_congr
    intro m _
    simp only [List.contains_cons, Bool.not_or]
    exact Bool.and_comm _ _

/-- The aggregator content carried by the deletion loop is the fold of
the exact-line removals. -/
lemma deleteStep_fold_content (p : Project) (cards : List Card) (fs : FS)
    (content : String) :
    ((cards.foldl (deleteStep p) (fs, content)).2)
      = stripRows (cards.map Card.key) content := by
  induction cards generalizing fs content with
  | nil => rfl
  | cons c cs ih =>
    rw [List.foldl_cons]
    rw [show deleteStep p (fs, content) c
        = (if (fs.files (p.cardUnitPath c.key)).isSome
             then fs.del (p.cardUnitPath c.key) else fs,
           jsReplaceFirst content (includeRow c.key) "") from rfl]
    rw [ih]
    rfl

/-- The deletion loop never creates a file. -/
lemma deleteStep_fold_none_mono (p : Project) (cards : List Card) (fs : FS)
    (content : String) (q : String) (h : fs.files q = none) :
    ((cards.foldl (deleteStep p) (fs, content)).1).files q = none := by
  induction cards generalizing fs content with
  | nil => exact h
  | cons c cs ih =>
    rw [List.foldl_cons]
    rw [show deleteStep p (fs, content) c
        = (if (fs.files (p.cardUnitPath c.key)).isSome
             then fs.del (p.cardUnitPath c.key) else fs,
           jsReplaceFirst content (includeRow c.key) "") from rfl]
    by_cases hc : (fs.files (p.cardUnitPath c.key)).isSome
    · rw [if_pos hc]
      apply ih
      show (if q = p.cardUnitPath c.key then none else fs.files q) = none
      by_cases hq : q = p.cardUnitPath c.key
      · rw [if_pos hq]
      · rw [if_neg hq]
        exact h
    · rw [if_neg hc]
      exact ih _ _ h

/-- After the deletion loop the unit of every affected card is gone. -/
lemma deleteStep_fold_unit_none (p : Project) (cards : List Card) (fs : FS)
    (content : String) (d : Card) (hd : d ∈ cards) :
    ((cards.foldl (deleteStep p) (fs, content)).1).files (p.cardUnitPath d.key)
      = none := by
  induction cards generalizing fs content with
  | nil => exact absurd hd (List.not_mem_nil d)
  | cons c cs ih =>
    rw [List.foldl_cons]
    rw [show deleteStep p (fs, content) c
        = (if (fs.files (p.cardUnitPath c.key)).isSome
             then fs.del (p.cardUnitPath c.key) else fs,
           jsReplaceFirst content (includeRow c.key) "") from rfl]
    rcases List.mem_cons.1 hd with h | h
    · subst h
      apply deleteStep_fold_none_mono
      by_cases hc : (fs.files (p.cardUnitPath d.key)).isSome
      · rw [if_pos hc]
        show (if p.cardUnitPath d.key = p.cardUnitPath d.key then none
              else fs.files (p.cardUnitPath d.key)) = none
        rw [if_pos rfl]
      · rw [if_neg hc]
        cases he : fs.files (p.cardUnitPath d.key) with
        | none => rfl
        | some v => rw [he] at hc; exact absurd rfl hc
    · by_cases hc : (fs.files (p.cardUnitPath c.key)).isSome
      · rw [if_pos hc]
        exact ih _ _ h
      · rw [if_neg hc]
        exact ih _ _ h

/-- The deletion loop leaves files of unaffected paths untouched. -/
lemma deleteStep_fold_files2 (p : Project) (cards : List Card) (fs : FS)
    (content : String) (q : String)
    (h : ∀ d ∈ cards, p.cardUnitPath d.key ≠ q) :
    ((cards.foldl (deleteStep p) (fs, content)).1).files q = fs.files q := by
  induction cards generalizing fs content with
  | nil => rfl
  | cons c cs ih =>
    rw [List.foldl_cons]
    rw [show deleteStep p (fs, content) c
        = (if (fs.files (p.cardUnitPath c.key)).isSome
             then fs.del (p.cardUnitPath c.key) else fs,
           jsReplaceFirst content (includeRow c.key) "") from rfl]
    by_cases hc : (fs.files (p.cardUnitPath c.key)).isSome
    · rw [if_pos hc, ih _ _ (fun d hd => h d (List.mem_cons_of_mem c hd))]
      simp [FS.del, Ne.symm (h c (List.mem_cons_self c cs))]
    · rw [if_neg hc, ih _ _ (fun d hd => h d (List.mem_cons_of_mem c hd))]

/-- When no affected unit exists the deletion loop changes no file. -/
lemma deleteStep_fold_id (p : Project) (cards : List Card) (fs : FS)
    (content : String)
    (h : ∀ d ∈ cards, fs.files (p.cardUnitPath d.key) = none) :
    ((cards.foldl (deleteStep p) (fs, content)).1) = fs := by
  induction cards generalizing fs content with
  | nil => rfl
  | cons c cs ih =>
    rw [List.foldl_cons]
    rw [show deleteStep p (fs, content) c
        = (if (fs.files (p.cardUnitPath c.key)).isSome
             then fs.del (p.cardUnitPath c.key) else fs,
           jsReplaceFirst content (includeRow c.key) "") from rfl]
    rw [if_neg (by rw [h c (List.mem_cons_self c cs)]; exact Bool.noConfusion)]
    exact ih _ _ (fun d hd => h d (List.mem_cons_of_mem c hd))

/-- C6 (amended): handleDeleteCard with a missing card argument is a
no-op; when the calculation folder does not exist (hence no unit files
exist) it completes without error and changes no file; when the
aggregator file and the calculation folder both exist, it deletes the
per-card unit of every affected card (missing units are tolerated),
rewrites the aggregator with the include row of each affected card
removed by exact first-occurrence line match, and touches nothing else;
and on a canonical aggregator the removal erases exactly the rows of
the affected keys. -/
theorem c6_amended_handle_delete (world : World) (proj : Project) (fs : FS)
    (c : Card) :
    (handleDeleteCard world { proj := some proj, fs := fs } none
        = .ok { proj := some proj, fs := fs })
    ∧ (fs.dirs proj.calculationFolder = false →
        (∀ d ∈ getCards proj (some c.key),
          fs.files (proj.cardUnitPath d.key) = none) →
        ∃ st2, handleDeleteCard world { proj := some proj, fs := fs } (some c)
            = .ok st2
          ∧ ∀ q, st2.fs.files q = fs.files q)
    ∧ (∀ t0, fs.files proj.cardTreeFilePath = some t0 →
        fs.dirs proj.calculationFolder = true →
        ∃ st2, handleDeleteCard world { proj := some proj, fs := fs } (some c)
            = .ok st2
          ∧ (∀ d ∈ getCards proj (some c.key),
              st2.fs.files (proj.cardUnitPath d.key) = none)
          ∧ st2.fs.files proj.cardTreeFilePath
              = some (stripRows ((getCards proj (some c.key)).map Card.key) t0)
          ∧ (∀ q, q ≠ proj.cardTreeFilePath →
              (∀ d ∈ getCards proj (some c.key), q ≠ proj.cardUnitPath d.key) →
              st2.fs.files q = fs.files q))
    ∧ (∀ (keys ks : List String), keys.Nodup →
        (∀ m ∈ keys, m.data.all isNameChar = true) →
        (∀ j ∈ ks, j.data.all isNameChar = true) →
        stripRows ks (strConcat (keys.map includeRow))
          = strConcat ((keys.filter (fun m => !ks.contains m)).map includeRow)) := by
  refine ⟨rfl, ?_, ?_, ?_⟩
  · intro hdir hunits
    have hcond : ((fs.files proj.cardTreeFilePath).isSome
        && fs.dirs proj.calculationFolder) = false := by
      rw [hdir, Bool.and_false]
    rw [handleDeleteCard_bound]
    refine ⟨_, rfl, ?_⟩
    intro q
    show ((if ((fs.files proj.cardTreeFilePath).isSome
            && fs.dirs proj.calculationFolder) then _ else _ : FS)).files q = _
    rw [if_neg (by rw [hcond]; exact Bool.noConfusion)]
    rw [deleteStep_fold_id proj _ fs _ hunits]
  · intro t0 htree hdir
    have hcond : ((fs.files proj.cardTreeFilePath).isSome
        && fs.dirs proj.calculationFolder) = true := by
      rw [htree, hdir]
      rfl
    rw [handleDeleteCard_bound]
    refine ⟨_, rfl, ?_, ?_, ?_⟩
    · intro d hd
      show ((if ((fs.files proj.cardTreeFilePath).isSome
              && fs.dirs proj.calculationFolder) then _ else _ : FS)).files _ = _
      rw [if_pos hcond]
      show (FS.write _ proj.cardTreeFilePath _).files (proj.cardUnitPath d.key) = none
      rw [show ∀ (f : FS) (ct : String),
          (f.write proj.cardTreeFilePath ct).files (proj.cardUnitPath d.key)
            = f.files (proj.cardUnitPath d.key) from fun f ct => by
        simp [FS.write, cardUnitPath_ne_cardTree proj d.key]]
      exact deleteStep_fold_unit_none proj _ fs _ d hd
    · show ((if ((fs.files proj.cardTreeFilePath).isSome
            && fs.dirs proj.calculationFolder) then _ else _ : FS)).files _ = _
      rw [if_pos hcond]
      show (FS.write _ proj.cardTreeFilePath _).files proj.cardTreeFilePath = _
      rw [show ∀ (f : FS) (ct : String),
          (f.write proj.cardTreeFilePath ct).files proj.cardTreeFilePath
            = some ct from fun f ct => by simp [FS.write]]
      rw [deleteStep_fold_content, htree]
      rfl
    · intro q hqt hqu
      show ((if ((fs.files proj.cardTreeFilePath).isSome
              && fs.dirs proj.calculationFolder) then _ else _ : FS)).files q = _
      rw [if_pos hcond]
      show (FS.write _ proj.cardTreeFilePath _).files q = _
      rw [show ∀ (f : FS) (ct : String),
          (f.write proj.cardTreeFilePath ct).files q = f.files q from fun f ct => by
        simp [FS.write, hqt]]
      exact deleteStep_fold_files2 proj _ fs _ q (fun d hd => Ne.symm (hqu d hd))
  · intro keys ks hnd hkeys hks
    rw [stripRows_rows ks keys hnd hkeys hks, foldl_erase_filter ks keys hnd]

/-- C6 counterexample: when the aggregator file is absent but the
calculation folder and a per-card unit exist, handleDeleteCard is not a
pure no-op: it still deletes the per-card unit. -/
theorem c6_counterexample :
    exFSnoAgg.files exProj.cardTreeFilePath = none
    ∧ exFSnoAgg.files (exProj.cardUnitPath "card_1") = some (cardLogic exCard)
    ∧ ∃ st2, handleDeleteCard exWorld { proj := some exProj, fs := exFSnoAgg }
          (some exCard) = .ok st2
        ∧ st2.fs.files (exProj.cardUnitPath "card_1") = none := by
  refine ⟨by decide, by decide, ?_⟩
  refine ⟨_, handleDeleteCard_bound exWorld exProj exFSnoAgg exCard, ?_⟩
  decide

/-- C6 witness: deleting the only card of the generated fixture. -/
theorem c6_amended_witness :
    ∃ st2, handleDeleteCard exWorld { proj := some exProj, fs := exFSgen }
        (some exCard) = .ok st2
      ∧ st2.fs.files (exProj.cardUnitPath "card_1") = none
      ∧ st2.fs.files exProj.cardTreeFilePath
          = some (stripRows ["card_1"] (cardTreeContentOf [exCard]))
      ∧ stripRows ["card_1"] (strConcat (["card_1"].map includeRow))
          = strConcat ((["card_1"].filter
              (fun m => !(["card_1"].contains m))).map includeRow) := by
  have h := (c6_amended_handle_delete exWorld exProj exFSgen exCard).2.2.1
    (cardTreeContentOf [exCard]) (by decide) (by decide)
  obtain ⟨st2, he, hu, ht, _⟩ := h
  have h4 := (c6_amended_handle_delete exWorld exProj exFSgen exCard).2.2.2
    ["card_1"] ["card_1"] (by decide) (by decide) (by decide)
  exact ⟨st2, he, hu exCard (by decide), ht, h4⟩

end Cyber
